import Mathlib

/-!
Verification development for a multi-site HTML-scraping pipeline.

The repository consists of several per-site scraper scripts
(`dairitenbosyuu/scrape.py`, `dairitenhonpo/scrape.py`,
`franchise_no_madoguti/scrape.py`, `repre/scrape.py`, `tabelog_all.py`).
Each turns a list of URLs into a CSV of extracted company records.

The embedding below models:
  * HTML documents at the level of the node queries the extractors perform
    (BeautifulSoup is an external library; a parsed document is modelled as a
    structure holding the text results of the exact queries each script makes,
    and the site-specific regular-expression engines are modelled as oracle
    fields, following the design's stance that the regex vocabularies are an
    external pattern-matching capability);
  * Python dicts as insertion-ordered association lists (`Dict`), matching
    CPython semantics: updating an existing key keeps its position, new keys
    are appended;
  * the HTTP layer as an oracle from attempt number to outcome
    (status + body, or a transport error).
All extraction/aggregation logic is translated statement-by-statement from the
Python source.
-/

/-- Insertion-ordered string-to-string map, modelling a Python `dict`. -/
abbrev Dict := List (String × String)

/-- `d[k]` lookup: first (unique, by construction) binding of `k`. -/
def dictGet : Dict → String → Option String
  | [], _ => none
  | (k', v) :: rest, k => if k' = k then some v else dictGet rest k

/-- `d[k] = v`: replace in place if the key exists, else append (CPython order). -/
def dictSet : Dict → String → String → Dict
  | [], k, v => [(k, v)]
  | (k', v') :: rest, k, v =>
      if k' = k then (k, v) :: rest else (k', v') :: dictSet rest k v

/-- `k in d`. -/
def dictHas (d : Dict) (k : String) : Bool := (dictGet d k).isSome

/-- `d.setdefault(k, v)`. -/
def dictSetD (d : Dict) (k v : String) : Dict :=
  if dictHas d k then d else d ++ [(k, v)]

/-- `list(d.keys())` in iteration order. -/
def dictKeys (d : Dict) : List String := d.map Prod.fst

@[simp] theorem dictGet_nil (k : String) : dictGet [] k = none := rfl

theorem dictGet_cons (k' v k) (rest : Dict) :
    dictGet ((k', v) :: rest) k = if k' = k then some v else dictGet rest k := rfl

@[simp] theorem dictGet_dictSet_self (d : Dict) (k v : String) :
    dictGet (dictSet d k v) k = some v := by
  induction d with
  | nil => simp [dictSet, dictGet]
  | cons p rest ih =>
      obtain ⟨k', v'⟩ := p
      by_cases h : k' = k <;> simp [dictSet, dictGet, h, ih]

theorem dictGet_dictSet_ne (d : Dict) (k v k' : String) (h : k ≠ k') :
    dictGet (dictSet d k v) k' = dictGet d k' := by
  induction d with
  | nil => simp [dictSet, dictGet, h]
  | cons p rest ih =>
      obtain ⟨k0, v0⟩ := p
      by_cases h0 : k0 = k
      · subst h0
        simp [dictSet, dictGet, h]
      · simp [dictSet, dictGet, h0, ih]

theorem dictGet_append_left (d₁ d₂ : Dict) (k : String)
    (h : (dictGet d₁ k).isSome) :
    dictGet (d₁ ++ d₂) k = dictGet d₁ k := by
  induction d₁ with
  | nil => simp [dictGet] at h
  | cons p rest ih =>
      obtain ⟨k0, v0⟩ := p
      by_cases h0 : k0 = k <;> simp [dictGet, h0] at h ⊢
      exact ih h

theorem dictGet_dictSetD_of_isSome (d : Dict) (k v k' : String)
    (h : (dictGet d k').isSome) :
    dictGet (dictSetD d k v) k' = dictGet d k' := by
  unfold dictSetD
  by_cases hk : dictHas d k
  · simp [hk]
  · simp only [hk, if_neg, Bool.false_eq_true, not_false_iff, ite_false]
    exact dictGet_append_left d [(k, v)] k' h

theorem dictSet_ne_nil (d : Dict) (k v : String) : dictSet d k v ≠ [] := by
  cases d with
  | nil => simp [dictSet]
  | cons p rest =>
      obtain ⟨k0, v0⟩ := p
      unfold dictSet
      by_cases h0 : k0 = k <;> simp [h0]

/-- Membership in the key list after `dictSet`. -/
theorem dictKeys_dictSet_subset (d : Dict) (k v : String) (k' : String)
    (h : k' ∈ dictKeys (dictSet d k v)) : k' = k ∨ k' ∈ dictKeys d := by
  induction d with
  | nil => simpa [dictSet, dictKeys] using h
  | cons p rest ih =>
      obtain ⟨k0, v0⟩ := p
      by_cases h0 : k0 = k
      · subst h0
        simpa [dictSet, dictKeys] using h
      · simp [dictSet, dictKeys, h0] at h
        rcases h with h | h
        · right; simp [dictKeys, h]
        · rcases ih (by simpa [dictKeys] using h) with h' | h'
          · exact Or.inl h'
          · right; simp [dictKeys] at h' ⊢
            exact Or.inr h'

/-- `dictGet` is `none` iff the key is not among the keys. -/
theorem dictGet_eq_none_iff (d : Dict) (k : String) :
    dictGet d k = none ↔ k ∉ dictKeys d := by
  induction d with
  | nil => simp [dictGet, dictKeys]
  | cons p rest ih =>
      obtain ⟨k0, v0⟩ := p
      by_cases h0 : k0 = k <;> simp [dictGet, dictKeys, h0, ih]
      · intro h; exact fun hk => h0 hk.symm

/-! ## String utilities

Character-level implementations of the string operations the Python scripts
use (`re.sub(r"\s+", " ", s).strip()`, substring containment, `str.split`,
`str.startswith`, `str.lower`, ...), kept structurally recursive so that all
embedded functions evaluate by `decide` / `rfl`.
-/

/-- Does `hay` start with `needle` (char lists)? Models `str.startswith`. -/
def leadsWith : List Char → List Char → Bool
  | [], _ => true
  | _ :: _, [] => false
  | a :: as, b :: bs => a = b && leadsWith as bs

/-- Is `needle` a contiguous subsequence of the char list? -/
def hasSubGo (needle : List Char) : List Char → Bool
  | [] => needle.isEmpty
  | c :: rest => leadsWith needle (c :: rest) || hasSubGo needle rest

/-- Python `needle in hay` on strings. -/
def strHas (hay needle : String) : Bool := hasSubGo needle.toList hay.toList

/-- Python `hay.startswith(needle)`. -/
def strStarts (hay needle : String) : Bool := leadsWith needle.toList hay.toList

/-- ASCII-lowercase a string (models `re.IGNORECASE` for the ASCII labels). -/
def lowerStr (s : String) : String := String.mk (s.toList.map Char.toLower)

/-- Case-insensitive containment. -/
def strHasCI (hay needle : String) : Bool := strHas (lowerStr hay) (lowerStr needle)

/-- Collapse every maximal whitespace run to a single space (`re.sub(r"\s+", " ", ·)`). -/
def squeezeGo : List Char → Bool → List Char
  | [], _ => []
  | c :: rest, inRun =>
      if c.isWhitespace then
        if inRun then squeezeGo rest true else ' ' :: squeezeGo rest true
      else c :: squeezeGo rest false

/-- Strip leading and trailing whitespace (`str.strip()`). -/
def trimChars (cs : List Char) : List Char :=
  ((cs.dropWhile Char.isWhitespace).reverse.dropWhile Char.isWhitespace).reverse

/-- `str.strip()` on strings. -/
def pyStrip (s : String) : String := String.mk (trimChars s.toList)

/-- `textnorm` of `dairitenbosyuu/scrape.py`: `re.sub(r"\s+", " ", s).strip()`. -/
def textnorm (s : String) : String := String.mk (trimChars (squeezeGo s.toList false))

/-- `normalize_text` of `dairitenhonpo/scrape.py`: `" ".join(s.split()).strip()`
(empty input short-circuits to `""`; the result coincides with whitespace
squeezing plus stripping). -/
def normalize_text (s : String) : String :=
  if s = "" then "" else String.mk (trimChars (squeezeGo s.toList false))

/-- `normalize_space` of `franchise_no_madoguti/scrape.py`: `re.sub(r"\s+", " ", s).strip()`. -/
def normalize_space (s : String) : String := String.mk (trimChars (squeezeGo s.toList false))

/-- The part of `txt` after its last ASCII colon (`txt.split(":")[-1]`). -/
def afterLastColon (s : String) : String :=
  String.mk ((s.toList.reverse.takeWhile (fun c => c ≠ ':')).reverse)

/-- Join with a separator (`sep.join(parts)`). -/
def strJoin (sep : String) : List String → String
  | [] => ""
  | [s] => s
  | s :: rest => s ++ sep ++ strJoin sep rest

/-- Lexicographic code-point comparison of char lists (Python string `<=`). -/
def charListLe : List Char → List Char → Bool
  | [], _ => true
  | _ :: _, [] => false
  | a :: as, b :: bs =>
      if a.toNat < b.toNat then true
      else if b.toNat < a.toNat then false
      else charListLe as bs

/-- Python string comparison `a <= b` (code-point lexicographic). -/
def strLe (a b : String) : Bool := charListLe a.toList b.toList

/-- Stable insertion into a `strLe`-sorted list of strings. -/
def insSorted (x : String) : List String → List String
  | [] => [x]
  | y :: ys => if strLe x y then x :: y :: ys else y :: insSorted x ys

/-- Ascending sort by Unicode code point, modelling Python `sorted` on strings. -/
def sortStr (l : List String) : List String := l.foldr insSorted []

example : textnorm "  a \t b  " = "a b" := by decide
example : strHas "会社情報セクション" "情報" = true := by decide
example : strHas "abc" "ac" = false := by decide
example : afterLastColon "a:b:c" = "c" := rfl
example : sortStr ["b", "a", "c"] = ["a", "b", "c"] := by decide
example : lowerStr "TeLフォン" = "telフォン" := by decide

theorem charToNat_inj {a b : Char} (h : a.toNat = b.toNat) : a = b := by
  have := Char.ofNat_toNat a
  rw [h, Char.ofNat_toNat] at this
  exact this.symm

theorem charListLe_total (a b : List Char) : charListLe a b || charListLe b a := by
  induction a generalizing b with
  | nil => simp [charListLe]
  | cons x xs ih =>
      cases b with
      | nil => simp [charListLe]
      | cons y ys =>
          by_cases h1 : x.toNat < y.toNat
          · simp [charListLe, h1]
          · by_cases h2 : y.toNat < x.toNat
            · simp [charListLe, h1, h2]
            · simpa [charListLe, h1, h2] using ih ys

theorem charListLe_antisymm {a b : List Char}
    (h1 : charListLe a b) (h2 : charListLe b a) : a = b := by
  induction a generalizing b with
  | nil =>
      cases b with
      | nil => rfl
      | cons y ys => simp [charListLe] at h2
  | cons x xs ih =>
      cases b with
      | nil => simp [charListLe] at h1
      | cons y ys =>
          by_cases hxy : x.toNat < y.toNat
          · have : ¬ y.toNat < x.toNat := Nat.lt_asymm hxy
            simp [charListLe, hxy, this] at h2
          · by_cases hyx : y.toNat < x.toNat
            · simp [charListLe, hxy, hyx] at h1
            · have hx : x = y := charToNat_inj (Nat.le_antisymm (Nat.le_of_not_lt hyx) (Nat.le_of_not_lt hxy))
              subst hx
              simp [charListLe, hxy] at h1 h2
              rw [ih h1 h2]

theorem charListLe_trans {a b c : List Char}
    (h1 : charListLe a b) (h2 : charListLe b c) : charListLe a c := by
  induction a generalizing b c with
  | nil => simp [charListLe]
  | cons x xs ih =>
      cases b with
      | nil => simp [charListLe] at h1
      | cons y ys =>
          cases c with
          | nil => simp [charListLe] at h2
          | cons z zs =>
              by_cases hxy : x.toNat < y.toNat <;> by_cases hyz : y.toNat < z.toNat
              · simp [charListLe, Nat.lt_trans hxy hyz]
              · by_cases hzy : z.toNat < y.toNat
                · simp [charListLe, hyz, hzy] at h2
                · have : y.toNat = z.toNat := Nat.le_antisymm (Nat.le_of_not_lt hzy) (Nat.le_of_not_lt hyz)
                  simp [charListLe, this ▸ hxy]
              · by_cases hyx : y.toNat < x.toNat
                · simp [charListLe, hxy, hyx] at h1
                · have : x.toNat = y.toNat := Nat.le_antisymm (Nat.le_of_not_lt hyx) (Nat.le_of_not_lt hxy)
                  simp [charListLe, this ▸ hyz]
              · by_cases hyx : y.toNat < x.toNat
                · simp [charListLe, hxy, hyx] at h1
                · by_cases hzy : z.toNat < y.toNat
                  · simp [charListLe, hyz, hzy] at h2
                  · have exy : x.toNat = y.toNat := Nat.le_antisymm (Nat.le_of_not_lt hyx) (Nat.le_of_not_lt hxy)
                    have eyz : y.toNat = z.toNat := Nat.le_antisymm (Nat.le_of_not_lt hzy) (Nat.le_of_not_lt hyz)
                    have hxz : ¬ x.toNat < z.toNat := by rw [exy, eyz]; exact Nat.lt_irrefl _
                    have hzx : ¬ z.toNat < x.toNat := by rw [exy, eyz]; exact Nat.lt_irrefl _
                    simp [charListLe, hxy, hyx] at h1
                    simp [charListLe, hyz, hzy] at h2
                    simpa [charListLe, hxz, hzx] using ih h1 h2

theorem strLe_total (a b : String) : strLe a b || strLe b a := charListLe_total _ _

theorem strLe_antisymm {a b : String} (h1 : strLe a b) (h2 : strLe b a) : a = b := by
  have := charListLe_antisymm h1 h2
  cases a; cases b
  simpa [String.toList] using congrArg String.mk this

theorem strLe_trans {a b c : String} (h1 : strLe a b) (h2 : strLe b c) : strLe a c :=
  charListLe_trans h1 h2

/-- Sortedness with respect to the Python string order. -/
def SortedStr (l : List String) : Prop := List.Sorted (fun a b => strLe a b = true) l

instance : IsAntisymm String (fun a b => strLe a b = true) :=
  ⟨fun _ _ h1 h2 => strLe_antisymm h1 h2⟩

instance : IsTrans String (fun a b => strLe a b = true) :=
  ⟨fun _ _ _ h1 h2 => strLe_trans h1 h2⟩

theorem insSorted_perm (x : String) (l : List String) :
    List.Perm (insSorted x l) (x :: l) := by
  induction l with
  | nil => simp [insSorted]
  | cons y ys ih =>
      unfold insSorted
      by_cases h : strLe x y
      · simp [h]
      · simp only [h, Bool.false_eq_true, if_false]
        exact List.Perm.trans (List.Perm.cons y ih) (List.Perm.swap x y ys)

theorem sortStr_perm (l : List String) : List.Perm (sortStr l) l := by
  induction l with
  | nil => simp [sortStr]
  | cons x xs ih =>
      have : sortStr (x :: xs) = insSorted x (sortStr xs) := rfl
      rw [this]
      exact List.Perm.trans (insSorted_perm x (sortStr xs)) (List.Perm.cons x ih)

theorem insSorted_sorted (x : String) (l : List String) (h : SortedStr l) :
    SortedStr (insSorted x l) := by
  induction l with
  | nil => simp [insSorted, SortedStr]
  | cons y ys ih =>
      unfold insSorted
      by_cases hxy : strLe x y
      · simp only [hxy, if_true]
        rw [SortedStr, List.sorted_cons]
        refine ⟨?_, h⟩
        intro b hb
        rcases List.mem_cons.mp hb with rfl | hb2
        · exact hxy
        · exact strLe_trans hxy (List.rel_of_sorted_cons h b hb2)
      · simp only [hxy, Bool.false_eq_true, if_false]
        have hyx : strLe y x := by
          have := strLe_total x y
          simp [hxy] at this
          exact this
        have hys : SortedStr ys := List.Sorted.of_cons h
        rw [SortedStr, List.sorted_cons]
        refine ⟨?_, ih hys⟩
        intro b hb
        have hb2 := (insSorted_perm x ys).mem_iff.mp hb
        rcases List.mem_cons.mp hb2 with rfl | hb3
        · exact hyx
        · exact List.rel_of_sorted_cons h b hb3

theorem sortStr_sorted (l : List String) : SortedStr (sortStr l) := by
  induction l with
  | nil => simp [sortStr, SortedStr]
  | cons x xs ih => exact insSorted_sorted x (sortStr xs) ih

theorem sortStr_eq_of_perm (l₁ l₂ : List String) (h : List.Perm l₁ l₂) :
    sortStr l₁ = sortStr l₂ :=
  List.eq_of_perm_of_sorted
    (List.Perm.trans (sortStr_perm l₁) (List.Perm.trans h (sortStr_perm l₂).symm))
    (sortStr_sorted l₁) (sortStr_sorted l₂)

/-! ## Fetch layer

The HTTP transport is an oracle from attempt index to outcome: either a
response with a status code and decoded body, or a raised
transport/timeout error (`requests.RequestException`). `time.sleep`
backoff only delays; it does not affect results and is not modelled.
-/

/-- Outcome of one `requests.get` call. -/
inductive HttpOutcome where
  | status (code : Nat) (body : String)
  | err (msg : String)
deriving DecidableEq

/-- `(html, status_code, error_message)` as returned by `fetch_html`. -/
abbrev FetchRes := Option String × Option Nat × Option String

namespace Honpo

/-- `RETRY_COUNT` of `dairitenhonpo/scrape.py`. -/
def RETRY_COUNT : Nat := 2

/-- The `for attempt in range(RETRY_COUNT + 1)` loop of `fetch_html`
(`dairitenhonpo/scrape.py`). `rest` is the number of retries still allowed
(`RETRY_COUNT - attempt`). The second component instruments the embedding
with the number of `requests.get` calls performed.

Per source: a 4xx status returns immediately; `raise_for_status()` raises
exactly for the remaining 400–599 range, i.e. 5xx, which is caught and
retried (or reported after the last attempt); every other status returns
the decoded body. A transport error is retried likewise. -/
def fetchHtmlLoop (oracle : Nat → HttpOutcome) : Nat → Nat → FetchRes × Nat
  | attempt, rest =>
    match oracle attempt with
    | .status c body =>
        if 400 ≤ c ∧ c < 500 then ((none, some c, some ("HTTP " ++ toString c)), attempt + 1)
        else if 500 ≤ c ∧ c < 600 then
          match rest with
          | r + 1 => fetchHtmlLoop oracle (attempt + 1) r
          | 0 => ((none, some c, some ("HTTP " ++ toString c)), attempt + 1)
        else ((some body, some c, none), attempt + 1)
    | .err msg =>
        match rest with
        | r + 1 => fetchHtmlLoop oracle (attempt + 1) r
        | 0 => ((none, none, some msg), attempt + 1)

/-- `fetch_html(url)` of `dairitenhonpo/scrape.py`, with attempt count. -/
def fetch_html (oracle : Nat → HttpOutcome) : FetchRes × Nat :=
  fetchHtmlLoop oracle 0 RETRY_COUNT

end Honpo

/-- Statuses inside the classes the claim enumerates: success (2xx),
terminal client error (4xx) or retryable server error (5xx). -/
def GoodStatus (c : Nat) : Prop := (200 ≤ c ∧ c < 300) ∨ (400 ≤ c ∧ c < 600)

/-- Reference fetch loop written from the claim's classification: 2xx returns
the body as success, 4xx is an immediate terminal failure, anything else
(5xx or a transport error) is retried while attempts remain and otherwise
reported as the failure result. -/
def specFetchLoop (oracle : Nat → HttpOutcome) : Nat → Nat → FetchRes
  | attempt, rest =>
    match oracle attempt with
    | .status c body =>
        if 200 ≤ c ∧ c < 300 then (some body, some c, none)
        else if 400 ≤ c ∧ c < 500 then (none, some c, some ("HTTP " ++ toString c))
        else match rest with
          | r + 1 => specFetchLoop oracle (attempt + 1) r
          | 0 => (none, some c, some ("HTTP " ++ toString c))
    | .err msg =>
        match rest with
        | r + 1 => specFetchLoop oracle (attempt + 1) r
        | 0 => (none, none, some msg)

/-- The claim's fetch contract with the configured retry count. -/
def specFetchRetry (oracle : Nat → HttpOutcome) : FetchRes :=
  specFetchLoop oracle 0 Honpo.RETRY_COUNT

namespace Bosyuu

/-- `fetch(url)` of `dairitenbosyuu/scrape.py`: a single `requests.get`; the
body is returned only when `status_code == 200`, any other status yields
`None`, and a `RequestException` yields `None`. No retry loop exists. -/
def fetch (outcome : HttpOutcome) : Option String :=
  match outcome with
  | .status c body => if c = 200 then some body else none
  | .err _ => none

end Bosyuu

theorem fetchHtmlLoop_eq_spec (oracle : Nat → HttpOutcome)
    (hgood : ∀ i c b, oracle i = .status c b → GoodStatus c) :
    ∀ rest attempt, (Honpo.fetchHtmlLoop oracle attempt rest).1 = specFetchLoop oracle attempt rest := by
  intro rest
  induction rest with
  | zero =>
      intro attempt
      unfold Honpo.fetchHtmlLoop specFetchLoop
      cases h : oracle attempt with
      | status c body =>
          rcases hgood attempt c body h with ⟨h1, h2⟩ | ⟨h1, h2⟩
          · have n4 : ¬ (400 ≤ c ∧ c < 500) := by omega
            have n5 : ¬ (500 ≤ c ∧ c < 600) := by omega
            have y2 : 200 ≤ c ∧ c < 300 := ⟨h1, h2⟩
            simp [n4, n5, y2]
          · by_cases h4 : c < 500
            · have y4 : 400 ≤ c ∧ c < 500 := ⟨h1, h4⟩
              have n2 : ¬ (200 ≤ c ∧ c < 300) := by omega
              simp [y4, n2]
            · have y5 : 500 ≤ c ∧ c < 600 := by omega
              have n4 : ¬ (400 ≤ c ∧ c < 500) := by omega
              have n2 : ¬ (200 ≤ c ∧ c < 300) := by omega
              simp [y5, n4, n2]
      | err msg => simp
  | succ r ih =>
      intro attempt
      unfold Honpo.fetchHtmlLoop specFetchLoop
      cases h : oracle attempt with
      | status c body =>
          rcases hgood attempt c body h with ⟨h1, h2⟩ | ⟨h1, h2⟩
          · have n4 : ¬ (400 ≤ c ∧ c < 500) := by omega
            have n5 : ¬ (500 ≤ c ∧ c < 600) := by omega
            have y2 : 200 ≤ c ∧ c < 300 := ⟨h1, h2⟩
            simp [n4, n5, y2]
          · by_cases h4 : c < 500
            · have y4 : 400 ≤ c ∧ c < 500 := ⟨h1, h4⟩
              have n2 : ¬ (200 ≤ c ∧ c < 300) := by omega
              simp [y4, n2]
            · have y5 : 500 ≤ c ∧ c < 600 := by omega
              have n4 : ¬ (400 ≤ c ∧ c < 500) := by omega
              have n2 : ¬ (200 ≤ c ∧ c < 300) := by omega
              simp [y5, n4, n2, ih]
      | err msg => simp [ih]

/-- A transport that answers 503 on the first two attempts and 200 on the third
(the spec's retry scenario). -/
def c2Oracle503 : Nat → HttpOutcome :=
  fun n => if n < 2 then .status 503 "busy" else .status 200 "ok"

/-- C2, counterexample. The claim quantifies over every fetch invocation, but
`fetch` of `dairitenbosyuu/scrape.py` succeeds only on status exactly 200: a
206 (2xx) response yields `None` instead of the decoded body, and a 503 is an
immediate `None` with no retry (the function performs a single attempt). -/
theorem c2_counterexample :
    Bosyuu.fetch (.status 206 "partial body") = none ∧
    Bosyuu.fetch (.status 503 "busy") = none := by
  constructor <;> rfl

/-- C2, amended: in `dairitenhonpo/scrape.py`, `fetch_html` classifies exactly
as the claim states — 4xx is an immediate terminal failure after a single
attempt, 2xx returns the decoded body after a single attempt, and 5xx or a
transport error is retried up to `RETRY_COUNT` additional attempts (so the
503·503·200 scenario succeeds on the third attempt); on every transport whose
statuses lie in the claim's three classes, `fetch_html` agrees with the
claim's reference retry contract `specFetchRetry`. In
`dairitenbosyuu/scrape.py`, however, `fetch` performs a single attempt with no
retries and returns the body only for status exactly 200; every other outcome
(including other 2xx codes, 4xx, 5xx and transport errors) is an immediate
`None`. -/
theorem c2_amended :
    (∀ oracle : Nat → HttpOutcome,
      (∀ i c b, oracle i = .status c b → GoodStatus c) →
      (Honpo.fetch_html oracle).1 = specFetchRetry oracle) ∧
    (∀ (oracle : Nat → HttpOutcome) (c : Nat) (b : String),
      oracle 0 = .status c b → 400 ≤ c → c < 500 →
      Honpo.fetch_html oracle = ((none, some c, some ("HTTP " ++ toString c)), 1)) ∧
    (∀ (oracle : Nat → HttpOutcome) (c : Nat) (b : String),
      oracle 0 = .status c b → 200 ≤ c → c < 300 →
      Honpo.fetch_html oracle = ((some b, some c, none), 1)) ∧
    (Honpo.fetch_html c2Oracle503 = ((some "ok", some 200, none), 3)) ∧
    (∀ (c : Nat) (b : String), Bosyuu.fetch (.status c b) = if c = 200 then some b else none) ∧
    (∀ m, Bosyuu.fetch (.err m) = none) := by
  refine ⟨?_, ?_, ?_, ?_, ?_, ?_⟩
  · intro oracle hgood
    exact fetchHtmlLoop_eq_spec oracle hgood Honpo.RETRY_COUNT 0
  · intro oracle c b h h1 h2
    unfold Honpo.fetch_html Honpo.fetchHtmlLoop
    rw [h]
    simp [show 400 ≤ c ∧ c < 500 from ⟨h1, h2⟩]
  · intro oracle c b h h1 h2
    unfold Honpo.fetch_html Honpo.fetchHtmlLoop
    rw [h]
    have n4 : ¬ (400 ≤ c ∧ c < 500) := by omega
    have n5 : ¬ (500 ≤ c ∧ c < 600) := by omega
    simp [n4, n5]
  · rfl
  · intro c b; rfl
  · intro m; rfl

/-- C2, witness: the amended theorem applied at concrete transports — an
all-200 transport satisfying the status hypothesis, and a transport whose
first answer is a 404. -/
theorem c2_witness :
    (Honpo.fetch_html (fun _ => .status 200 "ok")).1 = specFetchRetry (fun _ => .status 200 "ok") ∧
    Honpo.fetch_html (fun _ => .status 404 "nf") = ((none, some 404, some "HTTP 404"), 1) :=
  ⟨c2_amended.1 (fun _ => .status 200 "ok")
      (fun i c b h => by
        cases h
        exact Or.inl (by omega)),
   c2_amended.2.1 (fun _ => .status 404 "nf") 404 "nf" rfl (by omega) (by omega)⟩

namespace Honpo

/-- `KNOWN_FIELD_MAP` of `dairitenhonpo/scrape.py`, in declaration order. -/
def KNOWN_FIELD_MAP : List (String × String) :=
  [("会社名", "名称"), ("社名", "名称"), ("所在地", "住所"), ("住所", "住所"),
   ("設立", "設立"), ("代表者", "代表者"), ("資本金", "資本金"),
   ("事業内容", "事業内容"), ("電話", "電話"), ("TEL", "電話"),
   ("メール", "メール"), ("E-mail", "メール")]

/-- `REQUIRED_COLUMNS` of `dairitenhonpo/scrape.py`. -/
def REQUIRED_COLUMNS : List String := ["取得日時", "取得URL", "名称", "住所"]

/-- One scanned `<tr>`: the texts of `tr.find(["th","dt"])` and
`tr.find(["td","dd"])`, or `none` when either node is missing. -/
abbrev RowH := Option (String × String)

/-- `key_raw` of the row loop in `parse_company_table`. -/
def rowKey (row : String × String) : String := normalize_text row.1

/-- `val_raw` of the row loop: normalized, with CR removed, LF spaced, stripped. -/
def rowVal (row : String × String) : String :=
  pyStrip (String.mk (((normalize_text row.2).toList.filter (fun c => c ≠ '\r')).map
    (fun c => if c = '\n' then ' ' else c)))

/-- Label normalization: the first `KNOWN_FIELD_MAP` entry whose key occurs in
`key_raw` wins (declaration order); otherwise the raw label is kept. -/
def normKeyH (keyRaw : String) : String :=
  match KNOWN_FIELD_MAP.find? (fun p => strHas keyRaw p.1) with
  | some p => p.2
  | none => keyRaw

/-- Body of the `for tr in table.find_all("tr")` loop of `parse_company_table`:
rows with an empty normalized label are skipped, and a harvested value
replaces the stored one only when strictly longer. -/
def harvestRow (result : Dict) (row : RowH) : Dict :=
  match row with
  | none => result
  | some r =>
      let keyRaw := rowKey r
      if keyRaw = "" then result
      else
        let valRaw := rowVal r
        let nk := normKeyH keyRaw
        let prev := (dictGet result nk).getD ""
        if prev.length < valRaw.length then dictSet result nk valRaw else result

/-- The row loop of `parse_company_table` over one sequence of scanned rows. -/
def parseRows (rows : List RowH) : Dict := rows.foldl harvestRow []

/-- The parsed document as `parse_company_table` queries it: the table right
after a 会社情報 heading (when both exist) and all tables of the page. -/
structure HSoup where
  headingTable : Option (List RowH)
  tables : List (List RowH)

/-- Table loop of `parse_company_table`, with the early break once both 名称
and 住所 are present. -/
def parseTablesGo : Dict → List (List RowH) → Dict
  | result, [] => result
  | result, t :: rest =>
      let result := t.foldl harvestRow result
      if dictHas result "名称" && dictHas result "住所" then result
      else parseTablesGo result rest

/-- `parse_company_table(soup)` of `dairitenhonpo/scrape.py`. The
heading-adjacent table (when present) is scanned first, then all tables. -/
def parse_company_table (hs : HSoup) : Dict :=
  parseTablesGo [] (hs.headingTable.toList ++ hs.tables)

/-- `extract_record(url)` of `dairitenhonpo/scrape.py`; the fetch outcome is a
parameter (`none` models a failed `fetch_html`), `ts` the timestamp string. -/
def extract_record (ts url : String) (fetched : Option HSoup) : Option Dict :=
  match fetched with
  | none => none
  | some hs =>
      let tableData := parse_company_table hs
      let name := pyStrip ((dictGet tableData "名称").getD "")
      let address := pyStrip ((dictGet tableData "住所").getD "")
      if name = "" then none
      else
        let record : Dict := [("取得日時", ts), ("取得URL", url), ("名称", name), ("住所", address)]
        some (tableData.foldl
          (fun r kv => if kv.1 ∈ REQUIRED_COLUMNS then r else dictSet r kv.1 kv.2) record)

/-- Header construction of `write_csv`: required columns first, then every
other record key in first-seen order. -/
def writeCsvHeader (records : List Dict) : List String :=
  records.foldl (fun header rec =>
    rec.foldl (fun h kv => if kv.1 ∈ h then h else h ++ [kv.1]) header) REQUIRED_COLUMNS

end Honpo

example : Honpo.normKeyH "TEL（代表）" = "電話" := by decide
example : Honpo.parseRows [some ("会社名", "Acme"), some ("社名", "A")] = [("名称", "Acme")] := by decide
example : Honpo.parseRows [some ("会社名", ""), none] = [] := by decide


theorem strLen_zero {s : String} (h : s.length = 0) : s = "" := by
  cases s with
  | mk data =>
      cases data with
      | nil => rfl
      | cons a as => simp [String.length] at h

namespace Honpo

/-- Scalar view of `harvestRow` at one key: keep the longer value. -/
def bestStep (k : String) (cur : Option String) (row : RowH) : Option String :=
  match row with
  | none => cur
  | some r =>
      let keyRaw := rowKey r
      if keyRaw = "" then cur
      else if normKeyH keyRaw = k then
        let valRaw := rowVal r
        if (cur.getD "").length < valRaw.length then some valRaw else cur
      else cur

/-- The values harvested for key `k` from a row sequence, in row order. -/
def harvested (k : String) (rows : List RowH) : List String :=
  rows.filterMap (fun row =>
    match row with
    | none => none
    | some r =>
        let keyRaw := rowKey r
        if keyRaw ≠ "" ∧ normKeyH keyRaw = k then some (rowVal r) else none)

theorem harvestRow_sim (acc : Dict) (row : RowH) (k : String) :
    dictGet (harvestRow acc row) k = bestStep k (dictGet acc k) row := by
  cases row with
  | none => rfl
  | some r =>
      unfold harvestRow bestStep
      by_cases hk : rowKey r = ""
      · simp [hk]
      · simp only [hk, if_neg, if_false]
        by_cases hnk : normKeyH (rowKey r) = k
        · subst hnk
          by_cases hlen : ((dictGet acc (normKeyH (rowKey r))).getD "").length < (rowVal r).length
          · simp [hk, hlen]
          · simp [hk, hlen]
        · by_cases hlen : ((dictGet acc (normKeyH (rowKey r))).getD "").length < (rowVal r).length
          · simp [hk, hnk, hlen, dictGet_dictSet_ne _ _ _ _ hnk]
          · simp [hk, hnk, hlen]

theorem foldl_harvestRow_sim (rows : List RowH) (acc : Dict) (k : String) :
    dictGet (rows.foldl harvestRow acc) k = rows.foldl (bestStep k) (dictGet acc k) := by
  induction rows generalizing acc with
  | nil => rfl
  | cons row rest ih =>
      simp only [List.foldl_cons]
      rw [ih, harvestRow_sim]

theorem bestStep_isSome (k : String) (cur : Option String) (row : RowH) (p : String)
    (h : cur = some p) : (bestStep k cur row).isSome := by
  subst h
  cases row with
  | none => rfl
  | some r =>
      by_cases hk : rowKey r = "" <;> by_cases hnk : normKeyH (rowKey r) = k <;>
        by_cases hlen : p.length < (rowVal r).length <;>
        simp [bestStep, hk, hnk, hlen]

theorem foldl_bestStep_isSome (k : String) (rows : List RowH) :
    ∀ cur p, cur = some p → (rows.foldl (bestStep k) cur).isSome := by
  induction rows with
  | nil => intro cur p h; subst h; rfl
  | cons row rest ih =>
      intro cur p h
      simp only [List.foldl_cons]
      obtain ⟨q, hq⟩ := Option.isSome_iff_exists.mp (bestStep_isSome k cur row p h)
      exact ih _ q hq

/-- Correctness of the longest-wins scalar fold: the result is one of the
harvested values (or the seed) and dominates every harvested value in length. -/
theorem foldl_bestStep_max (k : String) (rows : List RowH) :
    ∀ cur v, rows.foldl (bestStep k) cur = some v →
      (cur = some v ∨ v ∈ harvested k rows) ∧
      (∀ w ∈ harvested k rows, w.length ≤ v.length) ∧
      (∀ p, cur = some p → p.length ≤ v.length) := by
  induction rows with
  | nil =>
      intro cur v h
      refine ⟨Or.inl h, ?_, ?_⟩
      · intro w hw; simp [harvested] at hw
      · intro p hp; rw [hp] at h; cases h; exact le_refl _
  | cons row rest ih =>
      intro cur v h
      simp only [List.foldl_cons] at h
      obtain ⟨h1, h2, h3⟩ := ih (bestStep k cur row) v h
      cases row with
      | none =>
          have hbs : bestStep k cur none = cur := rfl
          rw [hbs] at h1 h3
          have hh : harvested k (none :: rest) = harvested k rest := by simp [harvested]
          rw [hh]
          exact ⟨h1, h2, h3⟩
      | some r =>
          by_cases hk : rowKey r = ""
          · have hbs : bestStep k cur (some r) = cur := by simp [bestStep, hk]
            rw [hbs] at h1 h3
            have hh : harvested k (some r :: rest) = harvested k rest := by
              simp [harvested, hk]
            rw [hh]
            exact ⟨h1, h2, h3⟩
          · by_cases hnk : normKeyH (rowKey r) = k
            · have hh : harvested k (some r :: rest) = rowVal r :: harvested k rest := by
                simp [harvested, hk, hnk]
              rw [hh]
              by_cases hlen : ((cur.getD "").length < (rowVal r).length)
              · have hbs : bestStep k cur (some r) = some (rowVal r) := by
                  simp [bestStep, hk, hnk, hlen]
                rw [hbs] at h1 h3
                have hrv : (rowVal r).length ≤ v.length := h3 (rowVal r) rfl
                refine ⟨?_, ?_, ?_⟩
                · refine Or.inr ?_
                  rcases h1 with h1 | h1
                  · rw [← Option.some_inj.mp h1]
                    exact List.mem_cons_self _ _
                  · exact List.mem_cons_of_mem _ h1
                · intro w hw
                  rcases List.mem_cons.mp hw with heq | hw2
                  · subst heq; exact hrv
                  · exact h2 w hw2
                · intro p hp
                  have hplen : p.length < (rowVal r).length := by
                    rw [hp] at hlen
                    simpa using hlen
                  exact le_trans (le_of_lt hplen) hrv
              · have hbs : bestStep k cur (some r) = cur := by
                  simp [bestStep, hk, hnk, hlen]
                rw [hbs] at h1 h3
                refine ⟨h1.imp id (List.mem_cons_of_mem _), ?_, h3⟩
                intro w hw
                rcases List.mem_cons.mp hw with heq | hw2
                · subst heq
                  cases hcur : cur with
                  | none =>
                      rw [hcur] at hlen
                      simp at hlen
                      omega
                  | some p =>
                      have hple := h3 p hcur
                      rw [hcur] at hlen
                      simp at hlen
                      omega
                · exact h2 w hw2
            · have hbs : bestStep k cur (some r) = cur := by
                simp [bestStep, hk, hnk]
              rw [hbs] at h1 h3
              have hh : harvested k (some r :: rest) = harvested k rest := by
                simp [harvested, hk, hnk]
              rw [hh]
              exact ⟨h1, h2, h3⟩

/-- Existence: a non-empty harvested value forces a stored value. -/
theorem foldl_bestStep_some (k : String) (rows : List RowH) :
    ∀ cur, (∃ w ∈ harvested k rows, w ≠ "") →
      (rows.foldl (bestStep k) cur).isSome := by
  induction rows with
  | nil =>
      intro cur h
      obtain ⟨w, hw, _⟩ := h
      simp [harvested] at hw
  | cons row rest ih =>
      intro cur h
      obtain ⟨w, hw, hwne⟩ := h
      simp only [List.foldl_cons]
      cases row with
      | none =>
          have hh : harvested k (none :: rest) = harvested k rest := by simp [harvested]
          rw [hh] at hw
          exact ih _ ⟨w, hw, hwne⟩
      | some r =>
          by_cases hk : rowKey r = ""
          · have hh : harvested k (some r :: rest) = harvested k rest := by simp [harvested, hk]
            rw [hh] at hw
            have hbs : bestStep k cur (some r) = cur := by simp [bestStep, hk]
            rw [hbs]
            exact ih _ ⟨w, hw, hwne⟩
          · by_cases hnk : normKeyH (rowKey r) = k
            · have hh : harvested k (some r :: rest) = rowVal r :: harvested k rest := by
                simp [harvested, hk, hnk]
              rw [hh] at hw
              rcases List.mem_cons.mp hw with heq | hw2
              · subst heq
                by_cases hlen : ((cur.getD "").length < (rowVal r).length)
                · have hbs : bestStep k cur (some r) = some (rowVal r) := by
                    simp [bestStep, hk, hnk, hlen]
                  rw [hbs]
                  exact foldl_bestStep_isSome k rest _ (rowVal r) rfl
                · have hcur : ∃ p, cur = some p := by
                    cases hcur : cur with
                    | none =>
                        rw [hcur] at hlen
                        simp at hlen
                        exact absurd (strLen_zero (by omega)) hwne
                    | some p => exact ⟨p, rfl⟩
                  obtain ⟨p, hp⟩ := hcur
                  obtain ⟨q, hq⟩ := Option.isSome_iff_exists.mp (bestStep_isSome k cur (some r) p hp)
                  exact foldl_bestStep_isSome k rest _ q hq
              · cases hbs : bestStep k cur (some r) with
                | none => exact ih _ ⟨w, hw2, hwne⟩
                | some q => exact foldl_bestStep_isSome k rest _ q rfl
            · have hh : harvested k (some r :: rest) = harvested k rest := by
                simp [harvested, hk, hnk]
              rw [hh] at hw
              have hbs : bestStep k cur (some r) = cur := by simp [bestStep, hk, hnk]
              rw [hbs]
              exact ih _ ⟨w, hw, hwne⟩

end Honpo

namespace Bosyuu

/-- Body of the row loop of `extract_table_kv` (`dairitenbosyuu/scrape.py`):
a row with at least two cells contributes `kv[key] = val` whenever both
normalized texts are non-empty; a later row simply overwrites an earlier one.
Rows with fewer than two cells are skipped. -/
def kvRowStep : Dict → List String → Dict
  | kv, c0 :: c1 :: _ =>
      if textnorm c0 ≠ "" ∧ textnorm c1 ≠ "" then dictSet kv (textnorm c0) (textnorm c1) else kv
  | kv, _ => kv

/-- The row loop of `extract_table_kv` over all scanned rows. -/
def extractKvRows (rows : List (List String)) : Dict := rows.foldl kvRowStep []

/-- Scalar view of the `extract_table_kv` row step at one key. -/
def lastStep (k : String) (cur : Option String) : List String → Option String
  | c0 :: c1 :: _ =>
      if textnorm c0 = k ∧ textnorm c0 ≠ "" ∧ textnorm c1 ≠ "" then some (textnorm c1) else cur
  | _ => cur

/-- The value a row contributes to key `k`, if any. -/
def kvOfCells (k : String) : List String → Option String
  | c0 :: c1 :: _ =>
      if textnorm c0 = k ∧ textnorm c0 ≠ "" ∧ textnorm c1 ≠ "" then some (textnorm c1) else none
  | _ => none

/-- Values harvested for key `k` by `extract_table_kv`, in row order. -/
def harvestedKv (k : String) (rows : List (List String)) : List String :=
  rows.filterMap (kvOfCells k)

theorem kvStep_sim (acc : Dict) (cells : List String) (k : String) :
    dictGet (kvRowStep acc cells) k = lastStep k (dictGet acc k) cells := by
  match cells with
  | [] => rfl
  | [c0] => rfl
  | c0 :: c1 :: cr =>
      rw [kvRowStep]
      by_cases hne : textnorm c0 ≠ "" ∧ textnorm c1 ≠ ""
      · rw [if_pos hne]
        by_cases hck : textnorm c0 = k
        · subst hck
          rw [dictGet_dictSet_self]
          rw [lastStep, if_pos ⟨rfl, hne.1, hne.2⟩]
        · rw [dictGet_dictSet_ne _ _ _ _ hck]
          rw [lastStep, if_neg (fun hcond => hck hcond.1)]
      · rw [if_neg hne]
        rw [lastStep, if_neg (fun hcond => hne ⟨hcond.2.1, hcond.2.2⟩)]

theorem extractKvRows_foldl_sim (rows : List (List String)) (acc : Dict) (k : String) :
    dictGet (rows.foldl kvRowStep acc) k = rows.foldl (lastStep k) (dictGet acc k) := by
  induction rows generalizing acc with
  | nil => rfl
  | cons cells rest ih =>
      simp only [List.foldl_cons]
      rw [ih, kvStep_sim]

theorem getLast?_cons_or (a : String) (l : List String) :
    (a :: l).getLast? = l.getLast?.or (some a) := by
  cases l with
  | nil => rfl
  | cons b bs =>
      rw [List.getLast?_cons_cons]
      obtain ⟨x, hx⟩ := Option.isSome_iff_exists.mp (by
        rw [List.getLast?_isSome]; exact List.cons_ne_nil b bs)
      rw [hx]
      rfl

theorem foldl_lastStep_getLast (k : String) (rows : List (List String)) :
    ∀ cur, rows.foldl (lastStep k) cur = (harvestedKv k rows).getLast?.or cur := by
  induction rows with
  | nil => intro cur; rfl
  | cons cells rest ih =>
      intro cur
      simp only [List.foldl_cons]
      rw [ih]
      match cells with
      | [] => rfl
      | [c0] => rfl
      | c0 :: c1 :: cr =>
          by_cases hm : textnorm c0 = k ∧ textnorm c0 ≠ "" ∧ textnorm c1 ≠ ""
          · have hf : kvOfCells k (c0 :: c1 :: cr) = some (textnorm c1) := by
              rw [kvOfCells, if_pos hm]
            have hh : harvestedKv k ((c0 :: c1 :: cr) :: rest) = textnorm c1 :: harvestedKv k rest := by
              unfold harvestedKv
              rw [List.filterMap_cons, hf]
            have hls : lastStep k cur (c0 :: c1 :: cr) = some (textnorm c1) := by
              rw [lastStep, if_pos hm]
            rw [hh, hls, getLast?_cons_or]
            cases (harvestedKv k rest).getLast? <;> rfl
          · have hf : kvOfCells k (c0 :: c1 :: cr) = none := by
              rw [kvOfCells, if_neg hm]
            have hh : harvestedKv k ((c0 :: c1 :: cr) :: rest) = harvestedKv k rest := by
              unfold harvestedKv
              rw [List.filterMap_cons, hf]
            have hls : lastStep k cur (c0 :: c1 :: cr) = cur := by
              rw [lastStep, if_neg hm]
            rw [hh, hls]

/-- `extract_table_kv` at one key: the most recent (last) harvested value. -/
theorem extractKvRows_get (rows : List (List String)) (k : String) :
    dictGet (extractKvRows rows) k = (harvestedKv k rows).getLast? := by
  have h := extractKvRows_foldl_sim rows [] k
  rw [extractKvRows, h, foldl_lastStep_getLast]
  cases (harvestedKv k rows).getLast? <;> rfl

end Bosyuu

/-- C3, counterexample. In `extract_table_kv` of `dairitenbosyuu/scrape.py`
the later row wins regardless of length: with rows `[["k","aa"],["k","b"]]`
the key `"k"` harvests the non-empty values `["aa","b"]`, yet the stored
value is the shorter, later `"b"`, not the longest `"aa"`. -/
theorem c3_counterexample :
    dictGet (Bosyuu.extractKvRows [["k", "aa"], ["k", "b"]]) "k" = some "b" ∧
    Bosyuu.harvestedKv "k" [["k", "aa"], ["k", "b"]] = ["aa", "b"] ∧
    "b".length < "aa".length := by
  refine ⟨by decide, by decide, by decide⟩

/-- C3, amended. In `parse_company_table` of `dairitenhonpo/scrape.py` the
longest harvested value wins, exactly as the claim states: for every row
sequence and key, a stored value is one of the harvested values and is at
least as long as every harvested value, and some value is stored whenever a
non-empty value was harvested. In `extract_table_kv` of
`dairitenbosyuu/scrape.py`, however, the conflict rule is
most-recent-wins: the stored value is the last non-empty harvested value. -/
theorem c3_amended :
    (∀ (rows : List Honpo.RowH) (k v : String),
      dictGet (Honpo.parseRows rows) k = some v →
        v ∈ Honpo.harvested k rows ∧ ∀ w ∈ Honpo.harvested k rows, w.length ≤ v.length) ∧
    (∀ (rows : List Honpo.RowH) (k : String),
      (∃ w ∈ Honpo.harvested k rows, w ≠ "") → (dictGet (Honpo.parseRows rows) k).isSome) ∧
    (∀ (rows : List (List String)) (k : String),
      dictGet (Bosyuu.extractKvRows rows) k = (Bosyuu.harvestedKv k rows).getLast?) := by
  refine ⟨?_, ?_, ?_⟩
  · intro rows k v h
    rw [Honpo.parseRows, Honpo.foldl_harvestRow_sim] at h
    obtain ⟨h1, h2, _⟩ := Honpo.foldl_bestStep_max k rows (dictGet [] k) v h
    rcases h1 with h1 | h1
    · simp [dictGet] at h1
    · exact ⟨h1, h2⟩
  · intro rows k h
    rw [Honpo.parseRows, Honpo.foldl_harvestRow_sim]
    exact Honpo.foldl_bestStep_some k rows _ h
  · intro rows k
    exact Bosyuu.extractKvRows_get rows k

/-- C3, witness: the amended theorem applied to two rows that both normalize
to 名称, where the longer first value wins. -/
theorem c3_witness :
    "Acme" ∈ Honpo.harvested "名称" [some ("会社名", "Acme"), some ("社名", "A")] ∧
    ∀ w ∈ Honpo.harvested "名称" [some ("会社名", "Acme"), some ("社名", "A")],
      w.length ≤ "Acme".length :=
  c3_amended.1 [some ("会社名", "Acme"), some ("社名", "A")] "名称" "Acme" (by decide)

/-- A Python exception absorbed at a task boundary. -/
inductive PyErr where
  | httpError (msg : String)
  | timeout
  | other (msg : String)
deriving DecidableEq

namespace Bosyuu

/-- Label alternatives of the heading regex
`(募集企業|企業名|会社名)\s*[:：]\s*(.+)` in `guess_name_from_headings`. -/
def labelAlts : List (List Char) := [String.toList "募集企業", String.toList "企業名", String.toList "会社名"]

/-- Drop the first matching alternative prefix, if any. -/
def dropAlt (cs : List Char) : List (List Char) → Option (List Char)
  | [] => none
  | alt :: rest => if leadsWith alt cs then some (cs.drop alt.length) else dropAlt cs rest

/-- Try the heading pattern anchored at the current position: one of the three
labels, optional whitespace, an ASCII or full-width colon, optional
whitespace, then a non-empty remainder (group 2, greedy to end of line). -/
def tryLabelAt (cs : List Char) : Option String :=
  match dropAlt cs labelAlts with
  | none => none
  | some rest =>
      let rest1 := rest.dropWhile Char.isWhitespace
      match rest1 with
      | [] => none
      | ch :: rest2 =>
          if ch = ':' ∨ ch = '：' then
            let rest3 := rest2.dropWhile Char.isWhitespace
            if rest3.isEmpty then none else some (String.mk rest3)
          else none

/-- `re.search` of the heading pattern: leftmost matching position wins. -/
def matchLabelColon : List Char → Option String
  | [] => none
  | c :: rest =>
      match tryLabelAt (c :: rest) with
      | some g2 => some g2
      | none => matchLabelColon rest

/-- A parsed `dairitenbosyuu` document, holding the text results of the node
queries `scrape.py` performs. Regular-expression engines (`ADDRESS_PAT`,
`PHONE_PAT`, `EMAIL_PAT`) are oracle fields returning `m.group(0)` of
`re.search` over the given text, mirroring the design's treatment of the
regex vocabularies as an external pattern-matching capability. -/
structure BDoc where
  /-- `soup.find(string=re.compile(label))`: text of the first string node containing the label. -/
  findLabelNode : String → Option String
  /-- `get_text` of every `h1`, then every `h2`, then every `h3`. -/
  headings : List String
  /-- Cell texts of every `<tr>` of every table (all cells, row order). -/
  tableRows : List (List String)
  /-- `get_text` of every `p`, `li`, `div`, in order. -/
  blobs : List String
  /-- `soup.get_text(" ", strip=True)` of the whole page. -/
  wholeText : String
  /-- `ADDRESS_PAT.search(t)` as `group(0)`. -/
  addrSearch : String → Option String
  /-- `PHONE_PAT.search(t)` as `group(0)`. -/
  phoneSearch : String → Option String
  /-- `EMAIL_PAT.search(t)` as `group(0)`. -/
  emailSearch : String → Option String

/-- `extract_table_kv(soup)` of `dairitenbosyuu/scrape.py`. -/
def extract_table_kv (doc : BDoc) : Dict := extractKvRows doc.tableRows

/-- `guess_name_from_headings(soup)` of `dairitenbosyuu/scrape.py`:
候補 from labelled string nodes (text after the last colon), from
`h1`/`h2`/`h3` headings (the heading regex, and any heading containing
株式会社/有限会社), table keys 募集企業/企業名/会社名 prepended in front,
then dedup, prefer a candidate containing a legal-entity token, else the
first candidate. -/
def guess_name_from_headings (doc : BDoc) : Option String :=
  let cands1 := ["募集企業", "企業名", "会社名", "運営会社", "事業者名"].foldl (fun acc label =>
      match doc.findLabelNode label with
      | some nodeTxt =>
          let txt := textnorm nodeTxt
          if strHas txt ":" then
            let part := pyStrip (afterLastColon txt)
            if part ≠ "" then acc ++ [part] else acc
          else acc
      | none => acc) []
  let cands2 := doc.headings.foldl (fun acc h =>
      let t := textnorm h
      let acc2 := match matchLabelColon t.toList with
        | some g2 => acc ++ [textnorm g2]
        | none => acc
      if strHas t "株式会社" || strHas t "有限会社" then acc2 ++ [t] else acc2) cands1
  let kv := extract_table_kv doc
  let cands3 := ["募集企業", "企業名", "会社名"].foldl (fun acc key =>
      match dictGet kv key with
      | some v => if v ≠ "" then v :: acc else acc
      | none => acc) cands2
  let unique := cands3.foldl (fun u c0 =>
      let c := textnorm c0
      if c ≠ "" ∧ c ∉ u then u ++ [c] else u) []
  match unique.find? (fun c => strHas c "株式会社" || strHas c "有限会社" || strHas c "合同会社") with
  | some c => some c
  | none => unique.head?

/-- First non-empty value among the given keys. -/
def lookupNonEmpty (kv : Dict) : List String → Option String
  | [] => none
  | k :: rest =>
      match dictGet kv k with
      | some v => if v ≠ "" then some v else lookupNonEmpty kv rest
      | none => lookupNonEmpty kv rest

/-- First blob on which the address pattern fires. -/
def findAddrIn (doc : BDoc) : List String → Option String
  | [] => none
  | t :: rest =>
      match doc.addrSearch t with
      | some m => some (textnorm m)
      | none => findAddrIn doc rest

/-- `extract_address(soup, kv)` of `dairitenbosyuu/scrape.py`. -/
def extract_address (doc : BDoc) (kv : Dict) : Option String :=
  match lookupNonEmpty kv ["所在地", "住所"] with
  | some v => some v
  | none =>
      let blobs := doc.blobs.foldl (fun acc node =>
          let t := textnorm node
          if t ≠ "" then acc ++ [t] else acc) []
      findAddrIn doc blobs

/-- `EXTRA_COLUMNS` of `dairitenbosyuu/scrape.py`. -/
def EXTRA_COLUMNS : List String :=
  ["代表者", "設立", "資本金", "事業内容", "所在地", "電話番号", "メール", "募集企業", "募集地域", "初期費用"]

/-- `extract_extras(soup, kv)` of `dairitenbosyuu/scrape.py`. -/
def extract_extras (doc : BDoc) (kv : Dict) : Dict :=
  let out := EXTRA_COLUMNS.foldl (fun out key =>
      match dictGet kv key with
      | some v => if v ≠ "" then dictSet out key v else out
      | none => out) []
  let wholeTextN := textnorm doc.wholeText
  let out2 := if dictHas out "電話番号" then out else
      match doc.phoneSearch wholeTextN with
      | some m => dictSet out "電話番号" m
      | none => out
  if dictHas out2 "メール" then out2 else
      match doc.emailSearch wholeTextN with
      | some m => dictSet out2 "メール" m
      | none => out2

/-- `REQUIRED_COLUMNS` of `dairitenbosyuu/scrape.py`. -/
def REQUIRED_COLUMNS : List String := ["取得日時", "取得URL", "名称", "住所"]

/-- `parse_page(url, html)` of `dairitenbosyuu/scrape.py`; `ts` is the
timestamp string `datetime.now().strftime(...)`. Returns `none` exactly when
no 名称 was resolved. -/
def parse_page (ts url : String) (doc : BDoc) : Option Dict :=
  let kv := extract_table_kv doc
  let name := guess_name_from_headings doc
  if name.getD "" = "" then none
  else
    let addr := extract_address doc kv
    let extras := extract_extras doc kv
    let record : Dict := [("取得日時", ts), ("取得URL", url), ("名称", name.getD ""), ("住所", addr.getD "")]
    let record2 := extras.foldl (fun r p => if p.2 ≠ "" then dictSet r p.1 p.2 else r) record
    some (["募集地域", "初期費用"].foldl (fun r k =>
        match dictGet kv k with
        | some v => if v ≠ "" then dictSet r k v else r
        | none => r) record2)

/-- `process_url(url)` of `dairitenbosyuu/scrape.py`: `none` when the fetch
failed or returned an empty body, else `parse_page`. -/
def process_url (ts url : String) (fetched : Option BDoc) : Option Dict :=
  match fetched with
  | none => none
  | some doc => parse_page ts url doc

/-- The collection loop of `main` (`dairitenbosyuu/scrape.py`): exceptions
from a task are caught and logged; a record is appended only when it is
truthy and carries a non-empty 名称. -/
def collectResults (outcomes : String → Except PyErr (Option Dict)) (urls : List String) : List Dict :=
  urls.foldl (fun acc u =>
    match outcomes u with
    | .error _ => acc
    | .ok none => acc
    | .ok (some rec) =>
        if rec ≠ [] ∧ (dictGet rec "名称").getD "" ≠ "" then acc ++ [rec] else acc) []

/-- `unify_columns(records)` of `dairitenbosyuu/scrape.py`: required columns
first, then every other key in first-seen order (falsy records skipped). -/
def unify_columns (records : List Dict) : List String :=
  records.foldl (fun cols rec =>
    if rec = [] then cols
    else rec.foldl (fun c kv => if kv.1 ∈ c then c else c ++ [kv.1]) cols) REQUIRED_COLUMNS

end Bosyuu

/-- An empty parsed page: every query comes back empty. -/
def emptyBDoc : Bosyuu.BDoc :=
  { findLabelNode := fun _ => none
    headings := []
    tableRows := []
    blobs := []
    wholeText := ""
    addrSearch := fun _ => none
    phoneSearch := fun _ => none
    emailSearch := fun _ => none }

example : Bosyuu.guess_name_from_headings emptyBDoc = none := rfl
example : Bosyuu.parse_page "t" "u" emptyBDoc = none := rfl
example : Bosyuu.matchLabelColon (String.toList "募集企業： 株式会社テスト") = some "株式会社テスト" := by decide
example : Bosyuu.matchLabelColon (String.toList "会社名") = none := by decide

namespace Franchise

/-- `LABEL_PATTERNS` of `franchise_no_madoguti/scrape.py`: each regex is an
alternation of literals, kept in declaration order. -/
def LABEL_PATTERNS : List (List String × String) :=
  [(["会社情報", "会社概要"], "会社情報セクション"),
   (["住所", "所在地"], "住所"),
   (["設立", "設立年月日"], "設立"),
   (["代表者", "代表取締役", "代表"], "代表者"),
   (["資本金"], "資本金"),
   (["事業内容", "業務内容", "事業"], "事業内容"),
   (["従業員", "社員数", "従業員数"], "従業員"),
   (["URL", "公式サイト", "サイト", "ホームページ"], "URL"),
   (["電話", "TEL", "電話番号"], "電話"),
   (["所在地"], "住所")]

/-- `label_to_key(label)`: first pattern whose alternation matches
(case-insensitive substring search), else the normalized label itself. -/
def label_to_key (label : String) : String :=
  let lab := normalize_space label
  match LABEL_PATTERNS.find? (fun p => p.1.any (fun alt => strHasCI lab alt)) with
  | some p => p.2
  | none => lab

/-- `extract_text(el)`: empty for a missing node, else normalized text. -/
def extract_text : Option String → String
  | none => ""
  | some s => normalize_space s

/-- Split on newlines (`str.splitlines`; a trailing newline adds an empty
line here, which the caller filters out anyway). -/
def splitLinesGo : List Char → List Char → List String
  | cur, [] => [String.mk cur.reverse]
  | cur, c :: rest =>
      if c = '\n' then String.mk cur.reverse :: splitLinesGo [] rest
      else splitLinesGo (c :: cur) rest

def splitLines (s : String) : List String := splitLinesGo [] s.toList

/-- `^(.{1,30}?)[：:]\s*(.+)$`: the lazily-first colon at char index 1..30
splits the line; the value is the remainder after whitespace, and must be
non-empty. -/
def matchColonLine (line : String) : Option (String × String) :=
  let cs := line.toList
  match (List.range' 1 30).find? (fun i =>
      match cs[i]? with
      | some c => c = ':' || c = '：'
      | none => false) with
  | none => none
  | some i =>
      let label := String.mk (cs.take i)
      let rest := (cs.drop (i + 1)).dropWhile Char.isWhitespace
      if rest.isEmpty then none else some (label, String.mk rest)

/-- `^(.{1,30}?)\s*[-]\s*(.+)$`: the lazily-smallest label length 1..30 such
that, after optional whitespace, a dash follows. -/
def matchDashLine (line : String) : Option (String × String) :=
  let cs := line.toList
  match (List.range' 1 30).find? (fun i =>
      match (cs.drop i).dropWhile Char.isWhitespace with
      | c :: _ => c = '-'
      | [] => false) with
  | none => none
  | some i =>
      let label := String.mk (cs.take i)
      let afterDash := ((cs.drop i).dropWhile Char.isWhitespace).drop 1
      let rest := afterDash.dropWhile Char.isWhitespace
      if rest.isEmpty then none else some (label, String.mk rest)

/-- `parse_label_value_text(raw)` of `franchise_no_madoguti/scrape.py`. -/
def parse_label_value_text (raw : String) : List (String × String) :=
  let lines := ((splitLines raw).map normalize_space).filter (fun l => l ≠ "")
  lines.foldl (fun acc line =>
      match matchColonLine line with
      | some lv => acc ++ [lv]
      | none =>
          match matchDashLine line with
          | some lv => acc ++ [lv]
          | none => acc) []

/-- A candidate 会社情報 section, holding the text results of the node
queries `extract_company_info_from_section` performs. -/
structure FSection where
  /-- For each `dt` of each `dl`: its text and the text of the following `dd`, if any. -/
  dls : List (String × Option String)
  /-- For each `tr` of each table: texts of `tr.find("th")` and `tr.find("td")`. -/
  tables : List (Option String × Option String)
  /-- `section.get_text(separator=" ", strip=True)`. -/
  text : String
  /-- For each `strong`/`b`: its text and the text of its next sibling (possibly ""). -/
  strongs : List (String × String)
  /-- `get_text` of each `p` of the section. -/
  paragraphs : List String

/-- Structured stage of `extract_company_info_from_section`: definition lists
then tables; `data[key] = val` for every pair with a non-empty value. -/
def stage1 (sec : FSection) (data : Dict) : Dict :=
  let d1 := sec.dls.foldl (fun d p =>
      let key := label_to_key (extract_text (some p.1))
      let val := extract_text p.2
      if val ≠ "" then dictSet d key val else d) data
  sec.tables.foldl (fun d p =>
      match p.1, p.2 with
      | some th, some td =>
          let key := label_to_key (extract_text (some th))
          let val := extract_text (some td)
          if val ≠ "" then dictSet d key val else d
      | _, _ => d) d1

/-- Labelled-text-line stage: `data.setdefault(key, value)` per parsed line. -/
def stage2 (sec : FSection) (data : Dict) : Dict :=
  let txt := extract_text (some sec.text)
  (parse_label_value_text txt).foldl (fun d lv =>
      let key := label_to_key lv.1
      if lv.2 ≠ "" then dictSetD d key lv.2 else d) data

/-- Proximity stage over `strong`/`b` elements: `setdefault` when the
following text has no colon and is at most 300 chars. -/
def stage3 (sec : FSection) (data : Dict) : Dict :=
  sec.strongs.foldl (fun d p =>
      let label := extract_text (some p.1)
      let nextText := normalize_space p.2
      if nextText ≠ "" then
        if ¬ (strHas nextText ":" || strHas nextText "：") ∧ nextText.length ≤ 300 then
          dictSetD d (label_to_key label) nextText
        else d
      else d) data

/-- Paragraph fallback for 事業内容, only when the key is still unset. -/
def stage4 (sec : FSection) (data : Dict) : Dict :=
  if dictHas data "事業内容" then data
  else
    let pars := (sec.paragraphs.map normalize_space).filter (fun t => t ≠ "" ∧ 30 ≤ t.length)
    if pars.isEmpty then data
    else dictSet data "事業内容" (strJoin " / " (pars.take 3))

/-- `extract_company_info_from_section(section)` of
`franchise_no_madoguti/scrape.py`: the four stages in source order. -/
def extract_company_info_from_section (sec : FSection) : Dict :=
  stage4 sec (stage3 sec (stage2 sec (stage1 sec [])))

/-- A parsed `franchise_no_madoguti` document. `addrSearch` is the
prefecture-pattern `re.search` over the whole page text, as an oracle. -/
structure FDoc where
  /-- `get_text` of every `li`, `span`, `a` (breadcrumb scan). -/
  crumbs : List String
  /-- `get_text` of every `h1`. -/
  headings1 : List String
  /-- `get_text` of every `h2`. -/
  headings2 : List String
  /-- `soup.title.string`, when present and non-null. -/
  title : Option String
  /-- `find_company_section(soup)` results. -/
  sections : List FSection
  /-- Prefecture-regex search over `extract_text(soup)`, as `group(0)`. -/
  addrSearch : Option String
  /-- Every `a[href]`: `(href, text)`, in document order. -/
  anchors : List (String × String)

/-- `sorted(cands, key=len)[0]`: earliest among the minimal-length entries. -/
def minByLen (head : String) (rest : List String) : String :=
  rest.foldl (fun best c => if c.length < best.length then c else best) head

/-- First `h1`/`h2` whose text carries a legal-entity token. -/
def findHeadName : List String → Option String
  | [] => none
  | h :: rest =>
      let t := extract_text (some h)
      if strHas t "株式会社" || strHas t "有限会社" || strHas t "合同会社" then some t
      else findHeadName rest

def kabuChars : List Char := String.toList "株式会社"

/-- First `|`/`｜` at index ≥ 1. -/
def pipeScan : List Char → Nat → Option Nat
  | [], _ => none
  | c :: rest, i => if c = '|' || c = '｜' then some i else pipeScan rest (i + 1)

def firstPipeFrom1 : List Char → Option Nat
  | [] => none
  | _ :: rest => pipeScan rest 1

/-- `re.search(r"(株式会社.+?)($|[|｜]|｜)", title)`: from the first 株式会社
with a non-empty remainder, up to (exclusive) the first pipe after at least
one character, else to the end. -/
def titleNameGo : List Char → Option String
  | [] => none
  | c :: rest =>
      if leadsWith kabuChars (c :: rest) then
        let after := (c :: rest).drop 4
        if after.isEmpty then titleNameGo rest
        else
          let stop := match firstPipeFrom1 after with
            | some i => i
            | none => after.length
          some (String.mk (kabuChars ++ after.take stop))
      else titleNameGo rest

/-- `pick_name(soup)` of `franchise_no_madoguti/scrape.py`. -/
def pick_name (d : FDoc) : Option String :=
  let crumbCands := d.crumbs.foldl (fun acc el =>
      let txt := extract_text (some el)
      if strHas txt "株式会社" || strHas txt "有限会社" || strHas txt "組合" || strHas txt "合同会社"
      then acc ++ [txt] else acc) []
  match crumbCands with
  | c :: cs => some (minByLen c cs)
  | [] =>
      match findHeadName (d.headings1 ++ d.headings2) with
      | some t => some t
      | none =>
          match d.title with
          | some t0 => titleNameGo (normalize_space t0).toList
          | none => none

/-- Address regex fallback of `pick_address`. -/
def fallbackAddr (d : FDoc) : Option String :=
  match d.addrSearch with
  | some m => some (normalize_space m)
  | none => none

/-- `pick_address(info_map, soup)` of `franchise_no_madoguti/scrape.py`. -/
def pick_address (infoMap : Dict) (d : FDoc) : Option String :=
  match dictGet infoMap "住所" with
  | some v => if v ≠ "" then some v else fallbackAddr d
  | none => fallbackAddr d

/-- The `for k, v in extracted.items()` merge of `scrape_one` (lines
282–287): a key is copied into `info_map` only if not yet present and its
value is truthy (first-writer-wins across sections). -/
def mergeSection (im : Dict) (extracted : Dict) : Dict :=
  extracted.foldl (fun im2 kv => if ¬ dictHas im2 kv.1 ∧ kv.2 ≠ "" then dictSet im2 kv.1 kv.2 else im2) im

/-- The `for sec in sections` loop of `scrape_one`. -/
def buildInfoMap (d : FDoc) : Dict :=
  d.sections.foldl (fun im sec => mergeSection im (extract_company_info_from_section sec)) []

/-- The 会社名/商号/法人名/名称 fallback loop of `scrape_one`:
`if k in info_map and not name: name = info_map[k]`. -/
def resolveName (infoMap : Dict) (name0 : Option String) : Option String :=
  ["会社名", "商号", "法人名", "名称"].foldl (fun n k =>
      if dictHas infoMap k ∧ n.getD "" = "" then dictGet infoMap k else n) name0

/-- The `for k, v in info_map.items()` copy of `scrape_one`: everything
except 住所/名称 is written into the row. -/
def copyExtras (infoMap : Dict) (base : Dict) : Dict :=
  infoMap.foldl (fun b kv =>
      if kv.1 = "住所" ∨ kv.1 = "名称" then b else dictSet b kv.1 kv.2) base

/-- The trailing `if "URL" not in base` anchor scan of `scrape_one`. -/
def urlBackfill (d : FDoc) (base : Dict) : Dict :=
  if dictHas base "URL" then base
  else
    match d.anchors.find? (fun a =>
        strStarts a.1 "http" &&
        (strHas (extract_text (some a.2)) "公式" || strHas (extract_text (some a.2)) "サイト" ||
         strHas (extract_text (some a.2)) "ホームページ" || strHas (extract_text (some a.2)) "URL" ||
         ! strHas a.1 "fc-mado.com")) with
    | some a => dictSet base "URL" a.1
    | none => base

/-- `scrape_one(url)` of `franchise_no_madoguti/scrape.py`; the fetch outcome
is a parameter, `ts` the timestamp. Note: a row (`base`) is returned on every
path, even when no 名称 could be resolved. -/
def scrape_one (ts url : String) (fetched : Option FDoc) : Dict :=
  let base : Dict := [("取得日時", ts), ("取得URL", url), ("名称", ""), ("住所", "")]
  match fetched with
  | none => base
  | some d =>
      let infoMap := buildInfoMap d
      let name := resolveName infoMap (pick_name d)
      let address := pick_address infoMap d
      let base2 := dictSet (dictSet base "名称" (name.getD "")) "住所" (address.getD "")
      urlBackfill d (copyExtras infoMap base2)

/-- `pd.DataFrame(rows)` column order: union of row keys, first-seen. -/
def dfColumns (rows : List Dict) : List String :=
  rows.foldl (fun cols r => r.foldl (fun c kv => if kv.1 ∈ c then c else c ++ [kv.1]) cols) []

def FR_REQUIRED : List String := ["取得日時", "取得URL", "名称", "住所"]

/-- The column order produced by `to_dataframe(rows)` of
`franchise_no_madoguti/scrape.py`: missing required columns are appended
(`df[col] = ""`), then the required four lead and the remaining columns
follow in Python `sorted` order. -/
def toDataframeCols (rows : List Dict) : List String :=
  let cols := dfColumns rows
  let cols2 := FR_REQUIRED.foldl (fun cs col => if col ∈ cs then cs else cs ++ [col]) cols
  let others := cols2.filter (fun c => c ∉ FR_REQUIRED)
  FR_REQUIRED ++ sortStr others

end Franchise

/-- A section with no structure at all. -/
def emptyFSection : Franchise.FSection :=
  { dls := [], tables := [], text := "", strongs := [], paragraphs := [] }

/-- A parsed page with no name evidence: every query comes back empty. -/
def emptyFDoc : Franchise.FDoc :=
  { crumbs := [], headings1 := [], headings2 := [], title := none,
    sections := [], addrSearch := none, anchors := [] }

example : Franchise.pick_name emptyFDoc = none := rfl
example : Franchise.scrape_one "t" "u" (some emptyFDoc) =
    [("取得日時", "t"), ("取得URL", "u"), ("名称", ""), ("住所", "")] := rfl
example : Franchise.label_to_key "お問い合わせtel" = "電話" := by decide
example : Franchise.parse_label_value_text "資本金: 100万円\n代表 - 山田" =
    [("資本金", "100万円"), ("代表", "山田")] := by decide
example : Franchise.titleNameGo (String.toList "トップ｜株式会社テスト｜採用") = some "株式会社テスト" := by decide

namespace Repre

/-- `key_map` of `parse_company_table` (`repre/scrape.py`), declaration order. -/
def key_map : List (String × String) :=
  [("名称", "名称"), ("住所", "住所"), ("TEL", "TEL"), ("電話", "TEL"),
   ("設立", "設立"), ("資本金", "資本金"), ("年商", "年商"), ("部署", "部署"),
   ("従業員", "従業員"), ("事業", "事業")]

/-- Normalize a raw first-cell label: first `key_map` key contained in it. -/
def normKeyR (key : String) : String :=
  match key_map.find? (fun p => strHas key p.1) with
  | some p => p.2
  | none => key

/-- Row step of `parse_company_table`: rows with fewer than two cells are
skipped; otherwise `data[norm_key] = val` (whitespace-normalized value),
unconditionally overwriting. -/
def rowStepR (data : Dict) (cells : List String) : Dict :=
  match cells with
  | c0 :: c1 :: _ => dictSet data (normKeyR c0) (textnorm c1)
  | _ => data

/-- `parse_company_table(table)` of `repre/scrape.py`: the row loop, then the
TEL backfill — when no TEL key was produced, `data["TEL"] = ""`. -/
def parse_company_table (rows : List (List String)) : Dict :=
  let data := rows.foldl rowStepR []
  if dictHas data "TEL" then data else dictSet data "TEL" ""

/-- `process_url(url)` of `repre/scrape.py`: any exception raised by
`scrape_company_info_single` (HTTPError, Timeout, anything else) is caught
and an empty list returned. -/
def process_url (outcome : Except PyErr (List Dict)) : List Dict :=
  match outcome with
  | .ok rows => rows
  | .error _ => []

/-- The collection loop of `main` (`repre/scrape.py`):
`all_rows.extend(rows)` per completed task. -/
def mainRows (outcomes : String → Except PyErr (List Dict)) (urls : List String) : List Dict :=
  urls.foldl (fun acc u => acc ++ process_url (outcomes u)) []

/-- Exit status of `main` (`repre/scrape.py`): 1 without arguments, 1 when
reading the CSV raises (uncaught), 1 when no URLs were read, else the run
completes and the interpreter exits 0 regardless of the scraped results. -/
def mainExit (argsOk : Bool) (input : Except PyErr (List String))
    (outcomes : String → Except PyErr (List Dict)) : Nat :=
  if !argsOk then 1
  else match input with
  | .error _ => 1
  | .ok urls => if urls.isEmpty then 1 else 0

end Repre

namespace Honpo

/-- The collection loop of `main` (`dairitenhonpo/scrape.py`): a record is
appended iff `extract_record` returned one. -/
def collectRecords (outcomes : String → Option Dict) (urls : List String) : List Dict :=
  urls.foldl (fun acc u =>
    match outcomes u with
    | some rec => acc ++ [rec]
    | none => acc) []

/-- Exit status of `main` (`dairitenhonpo/scrape.py`): reading the CSV raises
uncaught (non-zero exit, modelled as 1) on an unreadable file; an empty URL
list hits `sys.exit(1)`; otherwise the run completes with exit 0 regardless
of the extraction outcomes. -/
def mainExit (input : Except PyErr (List String))
    (outcomes : String → Option Dict) : Nat :=
  match input with
  | .error _ => 1
  | .ok urls => if urls.isEmpty then 1 else 0

end Honpo

namespace Bosyuu

/-- Exit status of `main` (`dairitenbosyuu/scrape.py`): `read_urls` returns
`[]` for a missing input file, and `main` prints a message and plain-returns
on an empty URL list, so the interpreter exits 0 on every path. -/
def mainExit (fileExists : Bool) (rows : List String)
    (outcomes : String → Except PyErr (Option Dict)) : Nat :=
  if (if fileExists then rows else []).isEmpty then 0
  else 0

end Bosyuu

namespace Tabelog

/-- The detail-URL accumulation of `crawl_all_details`
(`tabelog_all.py`): `if u not in all_urls: all_urls.append(u)`. -/
def addDetails (acc : List String) (ds : List String) : List String :=
  ds.foldl (fun a d => if d ∈ a then a else a ++ [d]) acc

theorem addDetails_nodup (ds : List String) :
    ∀ acc : List String, acc.Nodup → (addDetails acc ds).Nodup := by
  induction ds with
  | nil => intro acc h; exact h
  | cons d rest ih =>
      intro acc h
      show (List.foldl _ (if d ∈ acc then acc else acc ++ [d]) rest).Nodup
      by_cases hd : d ∈ acc
      · rw [if_pos hd]; exact ih acc h
      · rw [if_neg hd]
        refine ih _ ?_
        simp [List.nodup_append, h, hd]

theorem crawl_measure_lt (U : Finset String) (seen : List String) (u : String)
    (hu : u ∈ U) (hs : u ∉ seen) :
    (U \ (seen ++ [u]).toFinset).card < (U \ seen.toFinset).card := by
  apply Finset.card_lt_card
  have hsub : U \ (seen ++ [u]).toFinset ⊆ U \ seen.toFinset := by
    apply Finset.sdiff_subset_sdiff (le_refl U)
    intro x hx
    simp [List.toFinset_append] at hx ⊢
    exact Or.inl hx
  rw [Finset.ssubset_iff_of_subset hsub]
  refine ⟨u, ?_, ?_⟩
  · simp [hu, hs]
  · simp

/-- The `while next_url and next_url not in seen_pages` loop of
`crawl_all_details` (`tabelog_all.py`). The web is an oracle
`f : url ↦ (detail urls of the page, next-page url)` — the composition of
`fetch_html` and `parse_list_page_for_detail_urls` — together with a finite
universe `U` that contains every next-page url `f` can produce; this is the
claim's finite-reachable-set hypothesis, and it makes the loop a total
function (termination). `seen` is `seen_pages` as an insertion-ordered list
(each fetched url is added before the next link is followed), `acc` is
`all_urls`. -/
def crawlLoop (f : String → List String × Option String) (U : Finset String)
    (hf : ∀ u v, (f u).2 = some v → v ∈ U) :
    (next : Option String) → (∀ v, next = some v → v ∈ U) →
    (seen : List String) → (acc : List String) → List String × List String
  | none, _, seen, acc => (seen, acc)
  | some u, hnext, seen, acc =>
      if hs : u ∈ seen then (seen, acc)
      else
        crawlLoop f U hf (f u).2 (fun v hv => hf u v hv) (seen ++ [u]) (addDetails acc (f u).1)
termination_by next _ seen _ => (U \ seen.toFinset).card
decreasing_by
  exact crawl_measure_lt U seen u (hnext u rfl) hs

/-- `crawl_all_details(list_url)` of `tabelog_all.py`, returning the fetched
list pages (in fetch order) alongside the collected detail URLs. -/
def crawl_all_details (f : String → List String × Option String) (U : Finset String)
    (hf : ∀ u v, (f u).2 = some v → v ∈ U) (start : String) (hstart : start ∈ U) :
    List String × List String :=
  crawlLoop f U hf (some start) (fun v hv => (Option.some_inj.mp hv) ▸ hstart) [] []

theorem crawlLoop_nodup (f : String → List String × Option String) (U : Finset String)
    (hf : ∀ u v, (f u).2 = some v → v ∈ U) :
    ∀ (n : Nat) (next : Option String) (hnext : ∀ v, next = some v → v ∈ U)
      (seen acc : List String),
      (U \ seen.toFinset).card ≤ n → seen.Nodup → acc.Nodup →
      (crawlLoop f U hf next hnext seen acc).1.Nodup ∧
      (crawlLoop f U hf next hnext seen acc).2.Nodup := by
  intro n
  induction n with
  | zero =>
      intro next hnext seen acc hcard hseen hacc
      cases next with
      | none => rw [crawlLoop]; exact ⟨hseen, hacc⟩
      | some u =>
          rw [crawlLoop]
          by_cases hs : u ∈ seen
          · simp only [hs, dite_true]
            exact ⟨hseen, hacc⟩
          · exfalso
            have hu : u ∈ U := hnext u rfl
            have hmem : u ∈ U \ seen.toFinset := by simp [hu, hs]
            have hpos : 0 < (U \ seen.toFinset).card := Finset.card_pos.mpr ⟨u, hmem⟩
            omega
  | succ m ih =>
      intro next hnext seen acc hcard hseen hacc
      cases next with
      | none => rw [crawlLoop]; exact ⟨hseen, hacc⟩
      | some u =>
          rw [crawlLoop]
          by_cases hs : u ∈ seen
          · simp only [hs, dite_true]
            exact ⟨hseen, hacc⟩
          · simp only [hs, dite_false]
            apply ih
            · have hlt := crawl_measure_lt U seen u (hnext u rfl) hs
              omega
            · simp [List.nodup_append, hseen, hs]
            · exact addDetails_nodup _ acc hacc
end Tabelog

/-- Generic: a fold whose step never disturbs an already-stored binding
leaves every stored binding intact. -/
theorem foldl_preserve_get {α : Type} (step : Dict → α → Dict)
    (hstep : ∀ acc x k v, dictGet acc k = some v → dictGet (step acc x) k = some v) :
    ∀ (l : List α) (acc : Dict) (k v : String),
      dictGet acc k = some v → dictGet (l.foldl step acc) k = some v := by
  intro l
  induction l with
  | nil => intro acc k v h; exact h
  | cons x rest ih =>
      intro acc k v h
      exact ih (step acc x) k v (hstep acc x k v h)

theorem stage2_preserves (sec : Franchise.FSection) (d : Dict) (k v : String)
    (h : dictGet d k = some v) : dictGet (Franchise.stage2 sec d) k = some v := by
  unfold Franchise.stage2
  refine foldl_preserve_get _ ?_ _ d k v h
  intro acc x k' v' h'
  show dictGet (if x.2 ≠ "" then dictSetD acc (Franchise.label_to_key x.1) x.2 else acc) k' = some v'
  by_cases hx : x.2 ≠ ""
  · rw [if_pos hx, dictGet_dictSetD_of_isSome]
    · exact h'
    · rw [h']; rfl
  · rw [if_neg hx]
    exact h'

theorem stage3_preserves (sec : Franchise.FSection) (d : Dict) (k v : String)
    (h : dictGet d k = some v) : dictGet (Franchise.stage3 sec d) k = some v := by
  unfold Franchise.stage3
  refine foldl_preserve_get _ ?_ _ d k v h
  intro acc x k' v' h'
  show dictGet (if normalize_space x.2 ≠ "" then
      (if ¬ (strHas (normalize_space x.2) ":" || strHas (normalize_space x.2) "：") ∧ (normalize_space x.2).length ≤ 300 then
        dictSetD acc (Franchise.label_to_key (Franchise.extract_text (some x.1))) (normalize_space x.2)
      else acc)
    else acc) k' = some v'
  by_cases hx : normalize_space x.2 ≠ ""
  · rw [if_pos hx]
    by_cases hcond : ¬ (strHas (normalize_space x.2) ":" || strHas (normalize_space x.2) "：") ∧
        (normalize_space x.2).length ≤ 300
    · rw [if_pos hcond, dictGet_dictSetD_of_isSome]
      · exact h'
      · rw [h']; rfl
    · rw [if_neg hcond]
      exact h'
  · rw [if_neg hx]
    exact h'

theorem stage4_preserves (sec : Franchise.FSection) (d : Dict) (k v : String)
    (h : dictGet d k = some v) : dictGet (Franchise.stage4 sec d) k = some v := by
  unfold Franchise.stage4
  by_cases hhas : dictHas d "事業内容"
  · rw [if_pos hhas]
    exact h
  · rw [if_neg hhas]
    by_cases hpars : ((sec.paragraphs.map normalize_space).filter (fun t => t ≠ "" ∧ 30 ≤ t.length)).isEmpty
    · rw [if_pos hpars]
      exact h
    · rw [if_neg hpars]
      have hk : k ≠ "事業内容" := by
        intro heq
        subst heq
        rw [dictHas, h] at hhas
        exact hhas rfl
      rw [dictGet_dictSet_ne _ _ _ _ (fun heq => hk heq.symm)]
      exact h

theorem mergeSection_preserves (im ex : Dict) (k v : String)
    (h : dictGet im k = some v) : dictGet (Franchise.mergeSection im ex) k = some v := by
  unfold Franchise.mergeSection
  refine foldl_preserve_get _ ?_ _ im k v h
  intro acc x k' v' h'
  show dictGet (if ¬ dictHas acc x.1 ∧ x.2 ≠ "" then dictSet acc x.1 x.2 else acc) k' = some v'
  by_cases hc : ¬ dictHas acc x.1 ∧ x.2 ≠ ""
  · rw [if_pos hc]
    have hne : x.1 ≠ k' := by
      intro heq
      rw [heq, dictHas, h'] at hc
      exact hc.1 rfl
    rw [dictGet_dictSet_ne _ _ _ _ hne]
    exact h'
  · rw [if_neg hc]
    exact h'

/-- C4: across cascade stages, first-writer-wins is an invariant. In
`extract_company_info_from_section` of `franchise_no_madoguti/scrape.py`,
every stage after the structured (dl/table) stage — the labelled-text-line
stage, the proximity (`strong`/`b`) stage, and the 事業内容 paragraph
fallback — leaves every key already stored in the record-in-progress
unchanged; consequently a key set by the structured stage survives the whole
cascade; and the cross-section merge of `scrape_one` copies a key only if it
is not yet in `info_map`, so an already-set key keeps its value. -/
theorem c4_first_writer_wins :
    (∀ (sec : Franchise.FSection) (d : Dict) (k v : String),
      dictGet d k = some v → dictGet (Franchise.stage2 sec d) k = some v) ∧
    (∀ (sec : Franchise.FSection) (d : Dict) (k v : String),
      dictGet d k = some v → dictGet (Franchise.stage3 sec d) k = some v) ∧
    (∀ (sec : Franchise.FSection) (d : Dict) (k v : String),
      dictGet d k = some v → dictGet (Franchise.stage4 sec d) k = some v) ∧
    (∀ (sec : Franchise.FSection) (k v : String),
      dictGet (Franchise.stage1 sec []) k = some v →
      dictGet (Franchise.extract_company_info_from_section sec) k = some v) ∧
    (∀ (im ex : Dict) (k v : String),
      dictGet im k = some v → dictGet (Franchise.mergeSection im ex) k = some v) :=
  ⟨stage2_preserves, stage3_preserves, stage4_preserves,
   fun sec k v h =>
     stage4_preserves sec _ k v (stage3_preserves sec _ k v (stage2_preserves sec _ k v h)),
   mergeSection_preserves⟩

/-- C4, witness: a stored 住所 survives the labelled-text-line stage. -/
theorem c4_witness :
    dictGet (Franchise.stage2 emptyFSection [("住所", "東京")]) "住所" = some "東京" :=
  c4_first_writer_wins.1 emptyFSection [("住所", "東京")] "住所" "東京" rfl

/-- C10: the list-page crawler of `tabelog_all.py` never fetches the same
page twice and returns a duplicate-free detail list. The loop adds the
current page to `seen_pages` before following the next link and only follows
links not yet seen, so the fetched sequence (`.1`) has no duplicates; the
collected detail URLs (`.2`) are appended only when absent, so they have no
duplicates either. Under the finite-reachable-set hypotheses (`U` contains
the start page and every next-page link), `crawl_all_details` is a total
(terminating) function by construction. -/
theorem c10_crawl_nodup :
    ∀ (f : String → List String × Option String) (U : Finset String)
      (hf : ∀ u v, (f u).2 = some v → v ∈ U) (start : String) (hstart : start ∈ U),
      (Tabelog.crawl_all_details f U hf start hstart).1.Nodup ∧
      (Tabelog.crawl_all_details f U hf start hstart).2.Nodup := by
  intro f U hf start hstart
  exact Tabelog.crawlLoop_nodup f U hf (U \ ([] : List String).toFinset).card (some start) _ [] []
    (le_refl _) List.nodup_nil List.nodup_nil

/-- C10, witness: a one-page site whose page links to nothing. -/
theorem c10_witness :
    (Tabelog.crawl_all_details (fun _ => ([], none)) {"s"}
      (fun _ v h => by simp at h) "s" (by simp)).1.Nodup ∧
    (Tabelog.crawl_all_details (fun _ => ([], none)) {"s"}
      (fun _ v h => by simp at h) "s" (by simp)).2.Nodup :=
  c10_crawl_nodup (fun _ => ([], none)) {"s"} (fun _ v h => by simp at h) "s" (by simp)

theorem repre_foldl_no_tel (rows : List (List String)) :
    ∀ acc : Dict,
      (∀ cells ∈ rows, ∀ c0 c1 cr, cells = c0 :: c1 :: cr → Repre.normKeyR c0 ≠ "TEL") →
      dictGet (rows.foldl Repre.rowStepR acc) "TEL" = dictGet acc "TEL" := by
  induction rows with
  | nil => intro acc _; rfl
  | cons cells rest ih =>
      intro acc hno
      simp only [List.foldl_cons]
      rw [ih _ (fun c hc => hno c (List.mem_cons_of_mem _ hc))]
      cases cells with
      | nil => rfl
      | cons c0 cs =>
          cases cs with
          | nil => rfl
          | cons c1 cr =>
              have hne := hno (c0 :: c1 :: cr) (List.mem_cons_self _ _) c0 c1 cr rfl
              rw [Repre.rowStepR]
              exact dictGet_dictSet_ne _ _ _ _ hne

/-- C9: the table parser of `repre/scrape.py` always defines the key `TEL` —
the final backfill inserts `TEL → ""` whenever no row produced a TEL-mapped
label, and a produced TEL binding is kept as is. -/
theorem c9_tel_always_present :
    (∀ rows : List (List String), (dictGet (Repre.parse_company_table rows) "TEL").isSome) ∧
    (∀ rows : List (List String),
      (∀ cells ∈ rows, ∀ c0 c1 cr, cells = c0 :: c1 :: cr → Repre.normKeyR c0 ≠ "TEL") →
      dictGet (Repre.parse_company_table rows) "TEL" = some "") := by
  constructor
  · intro rows
    unfold Repre.parse_company_table
    by_cases hhas : dictHas (rows.foldl Repre.rowStepR []) "TEL"
    · rw [if_pos hhas]
      exact hhas
    · rw [if_neg hhas, dictGet_dictSet_self]
      rfl
  · intro rows hno
    unfold Repre.parse_company_table
    have hget : dictGet (rows.foldl Repre.rowStepR []) "TEL" = none := by
      rw [repre_foldl_no_tel rows [] hno]
      rfl
    have hhas : ¬ dictHas (rows.foldl Repre.rowStepR []) "TEL" = true := by
      rw [dictHas, hget]
      simp
    rw [if_neg hhas, dictGet_dictSet_self]

/-- C9, witness: a table with a single 名称 row still defines TEL as "". -/
theorem c9_witness :
    dictGet (Repre.parse_company_table [["名称", "X"]]) "TEL" = some "" :=
  c9_tel_always_present.2 [["名称", "X"]] (by
    intro cells hc c0 c1 cr heq
    rw [List.mem_singleton] at hc
    subst hc
    injection heq with h1 h2
    subst h1
    decide)

/-- Generic: a fold over a url list skips every occurrence of a url whose
step is a no-op, so that url can be filtered out without changing the
result. -/
theorem foldl_skip_filter {α β : Type} [DecidableEq α] (step : β → α → β) (u : α)
    (hstep : ∀ acc, step acc u = acc) :
    ∀ (l : List α) (acc : β), l.foldl step acc = (l.filter (· ≠ u)).foldl step acc := by
  intro l
  induction l with
  | nil => intro acc; rfl
  | cons x rest ih =>
      intro acc
      by_cases hx : x = u
      · subst hx
        have hfilter : (x :: rest).filter (· ≠ x) = rest.filter (· ≠ x) := by
          simp [List.filter_cons]
        rw [hfilter, List.foldl_cons, hstep]
        exact ih acc
      · have hfilter : (x :: rest).filter (· ≠ u) = x :: rest.filter (· ≠ u) := by
          simp [List.filter_cons, hx]
        rw [hfilter, List.foldl_cons, List.foldl_cons]
        exact ih (step acc x)

/-- C7: per-URL failure isolation. `process_url` of `repre/scrape.py` maps
every raised exception to the empty row list (it never propagates); in the
batch loop this makes a failing URL contribute nothing, so it can be removed
from the input without changing the output (all other URLs' rows are
unaffected). The same holds for the collection loops of
`dairitenbosyuu/scrape.py` (whose `main` catches task exceptions) and
`dairitenhonpo/scrape.py` (whose `extract_record` returns `None` on
failure). -/
theorem c7_failure_isolation :
    (∀ e : PyErr, Repre.process_url (.error e) = []) ∧
    (∀ (outcomes : String → Except PyErr (List Dict)) (u : String) (e : PyErr),
      outcomes u = .error e →
      ∀ urls : List String,
        Repre.mainRows outcomes urls = Repre.mainRows outcomes (urls.filter (· ≠ u))) ∧
    (∀ (outcomes : String → Except PyErr (Option Dict)) (u : String) (e : PyErr),
      outcomes u = .error e →
      ∀ urls : List String,
        Bosyuu.collectResults outcomes urls = Bosyuu.collectResults outcomes (urls.filter (· ≠ u))) ∧
    (∀ (outcomes : String → Option Dict) (u : String),
      outcomes u = none →
      ∀ urls : List String,
        Honpo.collectRecords outcomes urls = Honpo.collectRecords outcomes (urls.filter (· ≠ u))) := by
  refine ⟨fun _ => rfl, ?_, ?_, ?_⟩
  · intro outcomes u e he urls
    unfold Repre.mainRows
    exact foldl_skip_filter _ u (fun acc => by rw [he]; simp [Repre.process_url]) urls []
  · intro outcomes u e he urls
    unfold Bosyuu.collectResults
    exact foldl_skip_filter _ u (fun acc => by rw [he]) urls []
  · intro outcomes u he urls
    unfold Honpo.collectRecords
    exact foldl_skip_filter _ u (fun acc => by rw [he]) urls []

/-- C7, witness: a batch with one timing-out URL equals the batch without it. -/
theorem c7_witness :
    Repre.mainRows (fun v => if v = "bad" then Except.error PyErr.timeout else Except.ok [[("名称", "X")]])
      ["good", "bad"] =
    Repre.mainRows (fun v => if v = "bad" then Except.error PyErr.timeout else Except.ok [[("名称", "X")]])
      (["good", "bad"].filter (· ≠ "bad")) :=
  c7_failure_isolation.2.1 _ "bad" PyErr.timeout rfl ["good", "bad"]

/-- C8, counterexample. `main` of `dairitenbosyuu/scrape.py` prints a message
and returns normally when `read_urls` comes back empty — for a missing input
file and for an empty URL list alike — so the interpreter exits 0, not
non-zero as the claim requires. -/
theorem c8_counterexample :
    Bosyuu.mainExit false [] (fun _ => .ok none) = 0 ∧
    Bosyuu.mainExit true [] (fun _ => .ok none) = 0 := ⟨rfl, rfl⟩

/-- C8, amended. For `dairitenhonpo/scrape.py` and `repre/scrape.py` the
claim holds: exit 1 exactly when the input is unreadable or the URL list is
empty (or, for repre, when no argument was given), and exit 0 on every
completed run regardless of the per-URL outcomes (including zero extracted
records). `dairitenbosyuu/scrape.py` however exits 0 on every path, even for
a missing input file or an empty URL list (it prints a message instead). -/
theorem c8_exit_status :
    (∀ outcomes, Honpo.mainExit (.ok []) outcomes = 1) ∧
    (∀ e outcomes, Honpo.mainExit (.error e) outcomes = 1) ∧
    (∀ urls outcomes, urls ≠ [] → Honpo.mainExit (.ok urls) outcomes = 0) ∧
    (∀ input outcomes, Repre.mainExit false input outcomes = 1) ∧
    (∀ outcomes, Repre.mainExit true (.ok []) outcomes = 1) ∧
    (∀ e outcomes, Repre.mainExit true (.error e) outcomes = 1) ∧
    (∀ urls outcomes, urls ≠ [] → Repre.mainExit true (.ok urls) outcomes = 0) ∧
    (∀ fileExists rows outcomes, Bosyuu.mainExit fileExists rows outcomes = 0) := by
  refine ⟨fun _ => rfl, fun _ _ => rfl, ?_, fun _ _ => rfl, fun _ => rfl, fun _ _ => rfl, ?_, ?_⟩
  · intro urls outcomes hne
    show (if urls.isEmpty = true then 1 else 0) = 0
    rw [if_neg (by simpa using hne)]
  · intro urls outcomes hne
    show (if urls.isEmpty = true then 1 else 0) = 0
    rw [if_neg (by simpa using hne)]
  · intro fileExists rows outcomes
    unfold Bosyuu.mainExit
    split <;> split <;> rfl

/-- C8, witness: a one-URL run completes with exit 0 for honpo and repre. -/
theorem c8_witness :
    Honpo.mainExit (.ok ["http://a.example/x"]) (fun _ => none) = 0 ∧
    Repre.mainExit true (.ok ["http://a.example/x"]) (fun _ => .ok []) = 0 :=
  ⟨c8_exit_status.2.2.1 ["http://a.example/x"] (fun _ => none) (by simp),
   c8_exit_status.2.2.2.2.2.2.1 ["http://a.example/x"] (fun _ => .ok []) (by simp)⟩

/-- Generic: a fold whose step preserves non-emptiness of the accumulator. -/
theorem foldl_ne_nil {α : Type} (step : Dict → α → Dict)
    (hstep : ∀ acc x, acc ≠ [] → step acc x ≠ []) :
    ∀ (l : List α) (acc : Dict), acc ≠ [] → l.foldl step acc ≠ [] := by
  intro l
  induction l with
  | nil => intro acc h; exact h
  | cons x rest ih => intro acc h; exact ih _ (hstep acc x h)

theorem copyExtras_ne_nil (im : Dict) (base : Dict) (h : base ≠ []) :
    Franchise.copyExtras im base ≠ [] := by
  unfold Franchise.copyExtras
  refine foldl_ne_nil _ ?_ im base h
  intro acc x hacc
  by_cases hx : x.1 = "住所" ∨ x.1 = "名称"
  · rw [if_pos hx]; exact hacc
  · rw [if_neg hx]; exact dictSet_ne_nil _ _ _

theorem urlBackfill_ne_nil (d : Franchise.FDoc) (base : Dict) (h : base ≠ []) :
    Franchise.urlBackfill d base ≠ [] := by
  unfold Franchise.urlBackfill
  by_cases hhas : dictHas base "URL"
  · rw [if_pos hhas]; exact h
  · rw [if_neg hhas]
    cases d.anchors.find? _ with
    | none => exact h
    | some a => exact dictSet_ne_nil _ _ _

/-- C1, counterexample. In `franchise_no_madoguti/scrape.py`, name
resolution fails on the empty document (`pick_name` returns `None`, and no
section provides a fallback), yet `scrape_one` still returns a Record for
the URL — the `base` row with an empty 名称 — which `main` appends to the
result list. The claim's "no Record / no row for that URL" is therefore
false for this extraction function. -/
theorem c1_counterexample :
    Franchise.pick_name emptyFDoc = none ∧
    Franchise.scrape_one "2024/01/01 00:00:00" "http://a.example/x" (some emptyFDoc) =
      [("取得日時", "2024/01/01 00:00:00"), ("取得URL", "http://a.example/x"),
       ("名称", ""), ("住所", "")] :=
  ⟨rfl, rfl⟩

/-- C1, amended. For `dairitenbosyuu/scrape.py` and `dairitenhonpo/scrape.py`
the claim holds: `parse_page` returns `None` whenever
`guess_name_from_headings` resolves no name, `extract_record` returns `None`
whenever the fetch failed or the harvested 名称 strips to empty, and in both
collection loops a URL whose task produced no record (or an empty 名称, or an
exception) contributes no row — it can be removed from the input without
changing the output. `franchise_no_madoguti/scrape.py` deviates:
`scrape_one` returns a (non-empty) row on every path, name or not. -/
theorem c1_name_gate :
    (∀ (ts url : String) (doc : Bosyuu.BDoc),
      (Bosyuu.guess_name_from_headings doc).getD "" = "" →
      Bosyuu.parse_page ts url doc = none) ∧
    (∀ ts url : String, Honpo.extract_record ts url none = none) ∧
    (∀ (ts url : String) (hs : Honpo.HSoup),
      pyStrip ((dictGet (Honpo.parse_company_table hs) "名称").getD "") = "" →
      Honpo.extract_record ts url (some hs) = none) ∧
    (∀ (outcomes : String → Except PyErr (Option Dict)) (u : String),
      outcomes u = .ok none →
      ∀ urls, Bosyuu.collectResults outcomes urls = Bosyuu.collectResults outcomes (urls.filter (· ≠ u))) ∧
    (∀ (outcomes : String → Except PyErr (Option Dict)) (u : String) (rec : Dict),
      outcomes u = .ok (some rec) → (dictGet rec "名称").getD "" = "" →
      ∀ urls, Bosyuu.collectResults outcomes urls = Bosyuu.collectResults outcomes (urls.filter (· ≠ u))) ∧
    (∀ (outcomes : String → Option Dict) (u : String),
      outcomes u = none →
      ∀ urls, Honpo.collectRecords outcomes urls = Honpo.collectRecords outcomes (urls.filter (· ≠ u))) ∧
    (∀ (ts url : String) (fetched : Option Franchise.FDoc),
      Franchise.scrape_one ts url fetched ≠ []) := by
  refine ⟨?_, fun _ _ => rfl, ?_, ?_, ?_, ?_, ?_⟩
  · intro ts url doc h
    simp only [Bosyuu.parse_page]
    rw [if_pos h]
  · intro ts url hs h
    simp only [Honpo.extract_record]
    rw [if_pos h]
  · intro outcomes u he urls
    unfold Bosyuu.collectResults
    exact foldl_skip_filter _ u (fun acc => by rw [he]) urls []
  · intro outcomes u rec he hname urls
    unfold Bosyuu.collectResults
    refine foldl_skip_filter _ u (fun acc => ?_) urls []
    rw [he]
    show (if rec ≠ [] ∧ (dictGet rec "名称").getD "" ≠ "" then acc ++ [rec] else acc) = acc
    rw [if_neg (fun hc => hc.2 hname)]
  · intro outcomes u he urls
    unfold Honpo.collectRecords
    exact foldl_skip_filter _ u (fun acc => by rw [he]) urls []
  · intro ts url fetched
    cases fetched with
    | none => simp [Franchise.scrape_one]
    | some d =>
        simp only [Franchise.scrape_one]
        exact urlBackfill_ne_nil _ _ (copyExtras_ne_nil _ _ (dictSet_ne_nil _ _ _))

/-- C1, witness: the amended gates applied at empty documents. -/
theorem c1_witness :
    Bosyuu.parse_page "t" "u" emptyBDoc = none ∧
    Honpo.extract_record "t" "u" (some ⟨none, []⟩) = none :=
  ⟨c1_name_gate.1 "t" "u" emptyBDoc rfl,
   c1_name_gate.2.2.1 "t" "u" ⟨none, []⟩ rfl⟩

/-- First-occurrence deduplicating accumulation: append each key not yet
present. This is the claim's "union of keys in first-seen order". -/
def dedupFS (acc : List String) (ks : List String) : List String :=
  ks.foldl (fun c k => if k ∈ c then c else c ++ [k]) acc

/-- The concatenated key stream of a record list, in iteration order. -/
def keyStream (records : List Dict) : List String :=
  (records.map dictKeys).join

theorem dedupFS_append (a b acc : List String) :
    dedupFS acc (a ++ b) = dedupFS (dedupFS acc a) b :=
  List.foldl_append _ _ _ _

theorem mem_dedupFS (l : List String) :
    ∀ (acc : List String) (c : String), c ∈ dedupFS acc l ↔ c ∈ acc ∨ c ∈ l := by
  induction l with
  | nil => intro acc c; simp [dedupFS]
  | cons k rest ih =>
      intro acc c
      show c ∈ dedupFS (if k ∈ acc then acc else acc ++ [k]) rest ↔ _
      rw [ih]
      by_cases hk : k ∈ acc
      · rw [if_pos hk]
        constructor
        · rintro (h | h)
          · exact Or.inl h
          · exact Or.inr (List.mem_cons_of_mem _ h)
        · rintro (h | h)
          · exact Or.inl h
          · rcases List.mem_cons.mp h with rfl | h
            · exact Or.inl hk
            · exact Or.inr h
      · rw [if_neg hk]
        simp only [List.mem_append, List.mem_singleton, List.mem_cons]
        tauto

theorem dedupFS_nodup (l : List String) :
    ∀ acc : List String, acc.Nodup → (dedupFS acc l).Nodup := by
  induction l with
  | nil => intro acc h; exact h
  | cons k rest ih =>
      intro acc h
      show (dedupFS (if k ∈ acc then acc else acc ++ [k]) rest).Nodup
      by_cases hk : k ∈ acc
      · rw [if_pos hk]; exact ih acc h
      · rw [if_neg hk]
        exact ih _ (by simp [List.nodup_append, h, hk])

theorem dedupFS_prefix (l : List String) :
    ∀ acc : List String, ∃ t, dedupFS acc l = acc ++ t ∧ ∀ x ∈ t, x ∈ l := by
  induction l with
  | nil => intro acc; exact ⟨[], by simp [dedupFS]⟩
  | cons k rest ih =>
      intro acc
      show ∃ t, dedupFS (if k ∈ acc then acc else acc ++ [k]) rest = acc ++ t ∧ _
      by_cases hk : k ∈ acc
      · rw [if_pos hk]
        obtain ⟨t, ht, hmem⟩ := ih acc
        exact ⟨t, ht, fun x hx => List.mem_cons_of_mem _ (hmem x hx)⟩
      · rw [if_neg hk]
        obtain ⟨t, ht, hmem⟩ := ih (acc ++ [k])
        refine ⟨k :: t, by rw [ht]; simp, ?_⟩
        intro x hx
        rcases List.mem_cons.mp hx with rfl | hx
        · exact List.mem_cons_self _ _
        · exact List.mem_cons_of_mem _ (hmem x hx)

theorem mem_keyStream (records : List Dict) (c : String) :
    c ∈ keyStream records ↔ ∃ rec ∈ records, c ∈ dictKeys rec := by
  unfold keyStream
  rw [List.mem_join]
  constructor
  · rintro ⟨l, hl, hc⟩
    obtain ⟨rec, hrec, rfl⟩ := List.mem_map.mp hl
    exact ⟨rec, hrec, hc⟩
  · rintro ⟨rec, hrec, hc⟩
    exact ⟨dictKeys rec, List.mem_map_of_mem _ hrec, hc⟩

theorem keyStream_cons (rec : Dict) (records : List Dict) :
    keyStream (rec :: records) = dictKeys rec ++ keyStream records := rfl

theorem dict_foldl_cols_eq (rec : Dict) :
    ∀ cols : List String,
      rec.foldl (fun c kv => if kv.1 ∈ c then c else c ++ [kv.1]) cols = dedupFS cols (dictKeys rec) := by
  intro cols
  unfold dedupFS dictKeys
  rw [List.foldl_map]

theorem unify_columns_eq_dedup (records : List Dict) :
    Bosyuu.unify_columns records = dedupFS Bosyuu.REQUIRED_COLUMNS (keyStream records) := by
  unfold Bosyuu.unify_columns
  suffices h : ∀ (rs : List Dict) (cols : List String),
      rs.foldl (fun cols rec =>
        if rec = [] then cols
        else rec.foldl (fun c kv => if kv.1 ∈ c then c else c ++ [kv.1]) cols) cols =
      dedupFS cols (keyStream rs) from h records _
  intro rs
  induction rs with
  | nil => intro cols; rfl
  | cons rec rest ih =>
      intro cols
      rw [List.foldl_cons, ih, keyStream_cons, dedupFS_append]
      by_cases hrec : rec = []
      · subst hrec
        rw [if_pos rfl]
        rfl
      · rw [if_neg hrec, dict_foldl_cols_eq]

theorem writeCsvHeader_eq_dedup (records : List Dict) :
    Honpo.writeCsvHeader records = dedupFS Honpo.REQUIRED_COLUMNS (keyStream records) := by
  unfold Honpo.writeCsvHeader
  suffices h : ∀ (rs : List Dict) (cols : List String),
      rs.foldl (fun header rec =>
        rec.foldl (fun h kv => if kv.1 ∈ h then h else h ++ [kv.1]) header) cols =
      dedupFS cols (keyStream rs) from h records _
  intro rs
  induction rs with
  | nil => intro cols; rfl
  | cons rec rest ih =>
      intro cols
      rw [List.foldl_cons, ih, keyStream_cons, dedupFS_append, dict_foldl_cols_eq]

theorem dfColumns_eq_dedup (rows : List Dict) :
    Franchise.dfColumns rows = dedupFS [] (keyStream rows) := by
  unfold Franchise.dfColumns
  suffices h : ∀ (rs : List Dict) (cols : List String),
      rs.foldl (fun cols r =>
        r.foldl (fun c kv => if kv.1 ∈ c then c else c ++ [kv.1]) cols) cols =
      dedupFS cols (keyStream rs) from h rows []
  intro rs
  induction rs with
  | nil => intro cols; rfl
  | cons rec rest ih =>
      intro cols
      rw [List.foldl_cons, ih, keyStream_cons, dedupFS_append, dict_foldl_cols_eq]

theorem toDataframeCols_eq (rows : List Dict) :
    Franchise.toDataframeCols rows =
      Franchise.FR_REQUIRED ++
        sortStr ((dedupFS [] (keyStream rows)).filter (fun c => c ∉ Franchise.FR_REQUIRED)) := by
  show Franchise.FR_REQUIRED ++
      sortStr (List.filter (fun c => decide (c ∉ Franchise.FR_REQUIRED))
        (dedupFS (Franchise.dfColumns rows) Franchise.FR_REQUIRED)) = _
  rw [dfColumns_eq_dedup]
  obtain ⟨t, ht, hmem⟩ := dedupFS_prefix Franchise.FR_REQUIRED (dedupFS [] (keyStream rows))
  rw [ht, List.filter_append]
  have htnil : t.filter (fun c => decide (c ∉ Franchise.FR_REQUIRED)) = [] := by
    rw [List.filter_eq_nil]
    intro a ha
    simp [hmem a ha]
  rw [htnil, List.append_nil]

/-- The row projection performed by `csv.DictWriter(fieldnames=header,
extrasaction="ignore")` (restval defaults to `""`): one cell per schema
column, `rec.get(col, "")`. -/
def writeRowCsv (header : List String) (rec : Dict) : List String :=
  header.map (fun c => (dictGet rec c).getD "")

/-- C5, counterexample. `to_dataframe` of `franchise_no_madoguti/scrape.py`
orders the non-required columns by `sorted`, not by first occurrence: with
rows whose extra keys appear in order `x` then `b`, the schema ends
`…, "b", "x"`, while the claim's first-occurrence union would end
`…, "x", "b"`. -/
theorem c5_counterexample :
    Franchise.toDataframeCols [[("x", "1")], [("b", "2")]] =
      ["取得日時", "取得URL", "名称", "住所", "b", "x"] ∧
    Franchise.toDataframeCols [[("x", "1")], [("b", "2")]] ≠
      Franchise.FR_REQUIRED ++
        (dedupFS [] (keyStream [[("x", "1")], [("b", "2")]])).filter
          (fun c => c ∉ Franchise.FR_REQUIRED) := by
  constructor
  · decide
  · decide

/-- C5, amended. `unify_columns` (`dairitenbosyuu/scrape.py`) and the
`write_csv` header (`dairitenhonpo/scrape.py`) are exactly as claimed: the
four required columns in fixed leading positions followed by the union of
all other observed keys in first-occurrence iteration order (`dedupFS`).
`to_dataframe` (`franchise_no_madoguti/scrape.py`) also leads with the four
required columns and covers the same key union, but orders the remaining
columns by Python `sorted` instead of first occurrence. Projection onto a
schema behaves as claimed in all variants (modelled after `csv.DictWriter`
with `extrasaction="ignore"`): one cell per schema column, an absent key
yields the empty string, and keys outside the schema do not affect the row. -/
theorem c5_schema :
    (∀ records, Bosyuu.unify_columns records =
      dedupFS [] (Bosyuu.REQUIRED_COLUMNS ++ keyStream records)) ∧
    (∀ records, Honpo.writeCsvHeader records =
      dedupFS [] (Honpo.REQUIRED_COLUMNS ++ keyStream records)) ∧
    (∀ rows, Franchise.toDataframeCols rows =
      Franchise.FR_REQUIRED ++
        sortStr ((dedupFS [] (keyStream rows)).filter (fun c => c ∉ Franchise.FR_REQUIRED))) ∧
    (∀ (header : List String) (rec : Dict),
      (writeRowCsv header rec).length = header.length) ∧
    (∀ (header : List String) (rec : Dict) (i : Nat) (c : String),
      header[i]? = some c → dictGet rec c = none → (writeRowCsv header rec)[i]? = some "") ∧
    (∀ (header : List String) (rec : Dict) (k v : String),
      k ∉ header → writeRowCsv header (dictSet rec k v) = writeRowCsv header rec) := by
  refine ⟨?_, ?_, toDataframeCols_eq, ?_, ?_, ?_⟩
  · intro records
    rw [unify_columns_eq_dedup, dedupFS_append]
    have h : dedupFS [] Bosyuu.REQUIRED_COLUMNS = Bosyuu.REQUIRED_COLUMNS := by decide
    rw [h]
  · intro records
    rw [writeCsvHeader_eq_dedup, dedupFS_append]
    have h : dedupFS [] Honpo.REQUIRED_COLUMNS = Honpo.REQUIRED_COLUMNS := by decide
    rw [h]
  · intro header rec
    exact List.length_map _ _
  · intro header rec i c hc hget
    unfold writeRowCsv
    rw [List.getElem?_map, hc]
    simp [hget]
  · intro header rec k v hk
    unfold writeRowCsv
    apply List.map_congr_left
    intro c hc
    have hne : k ≠ c := fun heq => hk (heq ▸ hc)
    rw [dictGet_dictSet_ne _ _ _ _ hne]

/-- C5, witness: a record lacking 名称 projects to an empty cell there. -/
theorem c5_witness :
    (writeRowCsv ["名称"] [("住所", "東京")])[0]? = some "" :=
  c5_schema.2.2.2.2.1 ["名称"] [("住所", "東京")] 0 "名称" rfl rfl

/-- C6, counterexample. The `unify_columns` schema
(`dairitenbosyuu/scrape.py`) is not invariant under record permutation:
records A (extra key `a`) and B (extra key `b`) give `…, "a", "b"` in one
order and `…, "b", "a"` in the other — same column set, different sequence. -/
theorem c6_counterexample :
    Bosyuu.unify_columns [[("a", "1")], [("b", "1")]] =
      ["取得日時", "取得URL", "名称", "住所", "a", "b"] ∧
    Bosyuu.unify_columns [[("b", "1")], [("a", "1")]] =
      ["取得日時", "取得URL", "名称", "住所", "b", "a"] ∧
    Bosyuu.unify_columns [[("a", "1")], [("b", "1")]] ≠
      Bosyuu.unify_columns [[("b", "1")], [("a", "1")]] := by
  refine ⟨by decide, by decide, by decide⟩

theorem mem_unify_columns (records : List Dict) (c : String) :
    c ∈ Bosyuu.unify_columns records ↔
      c ∈ Bosyuu.REQUIRED_COLUMNS ∨ ∃ rec ∈ records, c ∈ dictKeys rec := by
  rw [unify_columns_eq_dedup, mem_dedupFS, mem_keyStream]

/-- C6, amended. Under permutation of the record list the `unify_columns`
schema keeps the same column set but not the same order (the counterexample
above), while the `to_dataframe` schema of `franchise_no_madoguti/scrape.py`
is fully permutation-invariant — same set and same order — because its
non-required columns are sorted. -/
theorem c6_schema_permutation :
    (∀ rows₁ rows₂ : List Dict, List.Perm rows₁ rows₂ →
      Franchise.toDataframeCols rows₁ = Franchise.toDataframeCols rows₂) ∧
    (∀ recs₁ recs₂ : List Dict, List.Perm recs₁ recs₂ →
      ∀ c, c ∈ Bosyuu.unify_columns recs₁ ↔ c ∈ Bosyuu.unify_columns recs₂) := by
  constructor
  · intro rows₁ rows₂ hperm
    rw [toDataframeCols_eq, toDataframeCols_eq]
    congr 1
    apply sortStr_eq_of_perm
    have hn₁ : ((dedupFS [] (keyStream rows₁)).filter (fun c => c ∉ Franchise.FR_REQUIRED)).Nodup :=
      List.Nodup.filter _ (dedupFS_nodup _ [] List.nodup_nil)
    have hn₂ : ((dedupFS [] (keyStream rows₂)).filter (fun c => c ∉ Franchise.FR_REQUIRED)).Nodup :=
      List.Nodup.filter _ (dedupFS_nodup _ [] List.nodup_nil)
    rw [List.perm_ext_iff_of_nodup hn₁ hn₂]
    intro c
    rw [List.mem_filter, List.mem_filter, mem_dedupFS, mem_dedupFS, mem_keyStream, mem_keyStream]
    constructor
    · rintro ⟨h1, h2⟩
      refine ⟨?_, h2⟩
      rcases h1 with h1 | ⟨rec, hrec, hc⟩
      · simp at h1
      · exact Or.inr ⟨rec, hperm.mem_iff.mp hrec, hc⟩
    · rintro ⟨h1, h2⟩
      refine ⟨?_, h2⟩
      rcases h1 with h1 | ⟨rec, hrec, hc⟩
      · simp at h1
      · exact Or.inr ⟨rec, hperm.mem_iff.mpr hrec, hc⟩
  · intro recs₁ recs₂ hperm c
    rw [mem_unify_columns, mem_unify_columns]
    constructor
    · rintro (h | ⟨rec, hrec, hc⟩)
      · exact Or.inl h
      · exact Or.inr ⟨rec, hperm.mem_iff.mp hrec, hc⟩
    · rintro (h | ⟨rec, hrec, hc⟩)
      · exact Or.inl h
      · exact Or.inr ⟨rec, hperm.mem_iff.mpr hrec, hc⟩

/-- C6, witness: swapping two one-key records leaves the franchise schema
unchanged. -/
theorem c6_witness :
    Franchise.toDataframeCols [[("a", "1")], [("b", "1")]] =
      Franchise.toDataframeCols [[("b", "1")], [("a", "1")]] :=
  c6_schema_permutation.1 [[("a", "1")], [("b", "1")]] [[("b", "1")], [("a", "1")]]
    (List.Perm.swap _ _ _)
